import Mathlib

/-!
# MycilaTaskManager

A shallow embedding of `src/MycilaTaskManager.h` (classes `Mycila::Task` and
`Mycila::TaskManager`) in the default build configuration, i.e. with statistics,
completion callbacks and task parameters compiled in.

Conventions of the embedding

* `uint32_t` values are natural numbers below `2 ^ 32`; the unsigned subtraction
  of the source is `sub32`.
* Everything outside the scheduler lives in a `World`: the millisecond counter
  (a stream of readings, one consumed by each call of `millis()`), the state
  `ext` of the application (read by enabled-predicates, changed by work closures
  and completion callbacks), and `trace`, a log of every call that leaves the
  scheduler (work closure, completion callback, `yield()`, `delay()`).
* A method that reads the clock or calls out takes the world and returns the
  new world next to its result; a method that mutates the task returns the new
  task.
* A manager holds its tasks by address; the tasks themselves live in a `Heap`,
  which the methods of the manager take and return.
* Work closures, completion callbacks and enabled-predicates are code of the
  application: closures and callbacks change `ext` only and do not call back
  into the task that runs them, predicates only read `ext`.
-/

namespace Mycila

/-! ## Machine arithmetic -/

/-- Subtraction of two `uint32_t` values: `a - b` modulo `2 ^ 32`. -/
def sub32 (a b : Nat) : Nat := (a + (2 ^ 32 - b)) % 2 ^ 32

/-! ## Data model -/

/-- The enumeration `Task::Type`. -/
inductive TaskType where
  | ONCE
  | FOREVER
deriving DecidableEq, Repr

/-- What a callee sees of a task through `const Task&` at the moment of a call. -/
structure TaskView where
  name : String
  paused : Bool
  running : Bool
  type : TaskType
  intervalMs : Nat
  lastEnd : Nat
deriving DecidableEq, Repr

/-- Calls that leave the scheduler, in the order they are made. -/
inductive Event where
  | fn (self : TaskView) (params : Nat)
  | done (self : TaskView) (elapsed : Nat)
  | yield
  | delay (ms : Nat)
deriving DecidableEq, Repr

/-- The environment of the scheduler. `clock k` is the value of the millisecond
counter at the `k`-th call of `millis()`, `tick` counts the calls made so far. -/
structure World (σ : Type) where
  clock : Nat → Nat
  tick : Nat
  ext : σ
  trace : List Event

/-- The reading the next call of `millis()` returns (a `uint32_t`). -/
def World.reading {σ : Type} (w : World σ) : Nat := w.clock w.tick % 2 ^ 32

/-- The world after one call of `millis()`. -/
def World.next {σ : Type} (w : World σ) : World σ := { w with tick := w.tick + 1 }

/-- The world after one more logged call. -/
def World.log {σ : Type} (w : World σ) (e : Event) : World σ :=
  { w with trace := w.trace ++ [e] }

/-- Arduino `millis()`: the current reading, and the world after the call. -/
def millis {σ : Type} (w : World σ) : Nat × World σ := (w.reading, w.next)

/-- Arduino `yield()`. -/
def yield {σ : Type} (w : World σ) : World σ := w.log Event.yield

/-- Arduino `delay(ms)`. -/
def delay {σ : Type} (ms : Nat) (w : World σ) : World σ := w.log (Event.delay ms)

/-- Modelled from the spec: `MycilaBinStatistics.h` is not among the sources. A
duration histogram has a bin count and a unit divisor fixed at creation and
records observed durations; it is represented by these two parameters and the
sequence of values handed to `record`, of which the bin counts and the total
count are functions. -/
structure BinStatistics where
  binCount : Nat
  unitDivider : Nat
  observations : List Nat
deriving DecidableEq, Repr

/-- Modelled from the spec: `BinStatistics::record(value)` adds one observation. -/
def BinStatistics.record (s : BinStatistics) (value : Nat) : BinStatistics :=
  { s with observations := s.observations ++ [value] }

/-- Modelled from the spec: `BinStatistics::count()`, the total observation count. -/
def BinStatistics.count (s : BinStatistics) : Nat := s.observations.length

/-- The private members of `Mycila::Task`. `enabledPredicate` is `_enabled`,
`doneCallback` is `_onDone`, the others carry the name of the member without
the underscore. A null `std::function` or pointer is `none`; `params` is the
address held in `_params` (0 for `nullptr`). -/
structure Task (σ : Type) where
  name : String
  fn : Nat → σ → σ
  enabledPredicate : Option (σ → Bool)
  paused : Bool
  running : Bool
  type : TaskType
  intervalMs : Nat
  lastEnd : Nat
  stats : Option BinStatistics
  doneCallback : Option (TaskView → Nat → σ → σ)
  params : Nat

namespace Task

variable {σ : Type}

/-- The task as seen through `const Task&`. -/
def view (t : Task σ) : TaskView :=
  { name := t.name, paused := t.paused, running := t.running, type := t.type,
    intervalMs := t.intervalMs, lastEnd := t.lastEnd }

/-- The `uint32_t` members hold values below `2 ^ 32`. -/
@[reducible] def WF (t : Task σ) : Prop := t.intervalMs < 2 ^ 32 ∧ t.lastEnd < 2 ^ 32

/-- `Task& setType(Type type)`. -/
def setType (t : Task σ) (type : TaskType) : Task σ :=
  if t.type = type then t
  else { t with type := type, paused := decide (type = TaskType.ONCE) }

/-- `Task(const char* name, Type type, Function fn)`: the member initialisers,
then `setType(type)`. -/
def new (name : String) (type : TaskType) (fn : Nat → σ → σ) : Task σ :=
  setType
    { name := name, fn := fn, enabledPredicate := none, paused := false, running := false,
      type := TaskType.FOREVER, intervalMs := 0, lastEnd := 0, stats := none,
      doneCallback := none, params := 0 }
    type

/-- `Task& setEnabledWhen(Predicate predicate)`. -/
def setEnabledWhen (t : Task σ) (predicate : σ → Bool) : Task σ :=
  { t with enabledPredicate := some predicate }

/-- `bool enabled() const`: `!_enabled || _enabled()`. -/
def enabled (t : Task σ) (w : World σ) : Bool :=
  match t.enabledPredicate with
  | none => true
  | some p => p w.ext

/-- `Task& setInterval(uint32_t intervalMillis)`. -/
def setInterval (t : Task σ) (intervalMillis : Nat) : Task σ :=
  { t with intervalMs := intervalMillis }

/-- `uint32_t interval() const`. -/
def interval (t : Task σ) : Nat := t.intervalMs

/-- `Task& onDone(DoneCallback doneCallback)`. -/
def onDone (t : Task σ) (cb : TaskView → Nat → σ → σ) : Task σ :=
  { t with doneCallback := some cb }

/-- `Task& setData(void* params)`. -/
def setData (t : Task σ) (params : Nat) : Task σ := { t with params := params }

/-- `void* data() const`. -/
def data (t : Task σ) : Nat := t.params

/-- `Task& pause()`. -/
def pause (t : Task σ) : Task σ := { t with paused := true }

/-- `Task& resume(uint32_t delayMillis = 0)`. -/
def resume (t : Task σ) (delayMillis : Nat) (w : World σ) : Task σ × World σ :=
  if delayMillis ≠ 0 then
    ({ setInterval t delayMillis with lastEnd := (millis w).1, paused := false }, (millis w).2)
  else
    ({ t with paused := false }, w)

/-- `uint32_t remainingTme() const`. -/
def remainingTme (t : Task σ) (w : World σ) : Nat × World σ :=
  if t.intervalMs = 0 then (0, w)
  else
    (if sub32 (millis w).1 t.lastEnd ≥ t.intervalMs then 0
      else t.intervalMs - sub32 (millis w).1 t.lastEnd,
     (millis w).2)

/-- `bool scheduled() const`. -/
def scheduled (t : Task σ) (w : World σ) : Bool := t.enabled w && !t.paused

/-- `bool shouldRun() const`. The clock is read only when the first two
disjuncts are false. -/
def shouldRun (t : Task σ) (w : World σ) : Bool × World σ :=
  if t.paused || !t.enabled w then (false, w)
  else if t.lastEnd = 0 ∨ t.intervalMs = 0 then (true, w)
  else (decide (sub32 (millis w).1 t.lastEnd ≥ t.intervalMs), (millis w).2)

/-- `void _run(uint32_t now)`. -/
def run (t : Task σ) (now : Nat) (w : World σ) : Task σ × World σ :=
  -- _running = true; _fn(_params);
  let t1 : Task σ := { t with running := true }
  let w1 : World σ := { w with ext := t1.fn t1.params w.ext, trace := w.trace ++ [Event.fn t1.view t1.params] }
  -- _running = false; _lastEnd = millis();
  let t2 : Task σ := { t1 with running := false, lastEnd := (millis w1).1 }
  let w2 : World σ := (millis w1).2
  -- if (_type == Type::ONCE) _paused = true;
  let t3 : Task σ := if t2.type = TaskType.ONCE then { t2 with paused := true } else t2
  -- uint32_t elapsed = _lastEnd - now;
  let elapsed : Nat := sub32 t3.lastEnd now
  -- if (_stats) _stats->record(elapsed);
  let t4 : Task σ :=
    match t3.stats with
    | some s => { t3 with stats := some (s.record elapsed) }
    | none => t3
  -- if (_onDone) _onDone(*this, elapsed);
  let w3 : World σ :=
    match t4.doneCallback with
    | some cb => { w2 with ext := cb t4.view elapsed w2.ext, trace := w2.trace ++ [Event.done t4.view elapsed] }
    | none => w2
  (t4, w3)

/-- `bool tryRun()`. -/
def tryRun (t : Task σ) (w : World σ) : Bool × Task σ × World σ :=
  if t.paused || !t.enabled w then (false, t, w)
  else if t.lastEnd = 0 ∨ t.intervalMs = 0 then
    (true, t.run (millis w).1 (millis w).2)
  else if sub32 (millis w).1 t.lastEnd ≥ t.intervalMs then
    (true, t.run (millis w).1 (millis w).2)
  else (false, t, (millis w).2)

/-- `Task& forceRun()`. -/
def forceRun (t : Task σ) (w : World σ) : Task σ × World σ :=
  t.run (millis w).1 (millis w).2

/-- `Task& requestEarlyRun()`. -/
def requestEarlyRun (t : Task σ) : Task σ := { t with lastEnd := 0 }

/-- `bool earlyRunRequested() const`. -/
def earlyRunRequested (t : Task σ) : Bool := decide (t.lastEnd = 0)

/-- `void enableProfiling(uint8_t binCount = 10, uint32_t unitDividerMillis = 1)`. -/
def enableProfiling (t : Task σ) (binCount unitDividerMillis : Nat) : Task σ :=
  match t.stats with
  | none => { t with stats := some { binCount := binCount, unitDivider := unitDividerMillis, observations := [] } }
  | some _ => t

/-- `void disableProfiling()`. -/
def disableProfiling (t : Task σ) : Task σ := { t with stats := none }

/-- `bool profiled() const`. -/
def profiled (t : Task σ) : Bool := t.stats.isSome

end Task

/-- Modelled from the spec: `Task& setEnabled(bool enabled)` is declared in the
header and defined outside the sources; it "sets a trivial
always-true/always-false predicate". -/
def Task.setEnabled {σ : Type} (t : Task σ) (enabled : Bool) : Task σ :=
  { t with enabledPredicate := some (fun _ => enabled) }

/-- `Task(const char* name, Function fn)`, which delegates to
`Task(name, Type::FOREVER, fn)`. -/
def Task.newForever {σ : Type} (name : String) (fn : Nat → σ → σ) : Task σ :=
  Task.new name TaskType.FOREVER fn

/-- The task objects of the program by address: `h p` is the task that lives at
address `p`, `none` where no task lives. A manager and the application reach the
same task through the same address, so a change made through one is seen
through the other, and through every list element that holds the address. -/
abbrev Heap (σ : Type) := Nat → Option (Task σ)

/-- The heap in which no task has been constructed yet. -/
def Heap.empty {σ : Type} : Heap σ := fun _ => none

/-- The heap after the task at address `p` has become `t`. -/
def Heap.set {σ : Type} (h : Heap σ) (p : Nat) (t : Task σ) : Heap σ :=
  fun q => if q = p then some t else h q

/-- The members of `Mycila::TaskManager` that the synchronous interface uses.
`tasks` is `std::list<std::shared_ptr<Task>> _tasks`: the addresses the shared
pointers hold, in list order. The destruction of tasks is not part of the
embedding, so the deleter of a shared pointer (owning, or `doNotDelete`) plays
no part. -/
structure TaskManager where
  name : String
  tasks : List Nat
  stats : Option BinStatistics

namespace TaskManager

variable {σ : Type}

/-- `explicit TaskManager(const char* name)`. -/
def new (name : String) : TaskManager := { name := name, tasks := [], stats := none }

/-- `Task& newTask(const char* name, Task::Type type, Task::Function fn)`; `ptr`
is the address of the task that `std::make_shared` allocates. -/
def newTask (tm : TaskManager) (ptr : Nat) (name : String) (type : TaskType)
    (fn : Nat → σ → σ) (h : Heap σ) : TaskManager × Heap σ :=
  ({ tm with tasks := tm.tasks ++ [ptr] }, h.set ptr (Task.new name type fn))

/-- `Task& newTask(const char* name, Task::Function fn)`, which delegates to
`newTask(name, Task::Type::FOREVER, fn)`. -/
def newTaskForever (tm : TaskManager) (ptr : Nat) (name : String)
    (fn : Nat → σ → σ) (h : Heap σ) : TaskManager × Heap σ :=
  newTask tm ptr name TaskType.FOREVER fn h

/-- `void addTask(Task& task)`; `ptr` is the address of `task`. -/
def addTask (tm : TaskManager) (ptr : Nat) : TaskManager :=
  { tm with tasks := tm.tasks ++ [ptr] }

/-- `void removeTask(Task& task)`; `ptr` is the address of `task`.
`std::list::remove_if` erases every element for which the predicate
`t.get() == &task` holds and keeps the others in their order. -/
def removeTask (tm : TaskManager) (ptr : Nat) : TaskManager :=
  { tm with tasks := tm.tasks.filter (fun p => !decide (p = ptr)) }

/-- `size_t tasks() const` (the member `_tasks` is the field `tasks`). -/
def size (tm : TaskManager) : Nat := tm.tasks.length

/-- `bool empty() const`. -/
def empty (tm : TaskManager) : Bool := tm.tasks.isEmpty

/-- The `for (auto& task : _tasks)` of `loop`: `tryRun` on the task of each
element in list order, counting the runs and yielding after each one. An
address at which no task lives would be a dangling pointer; such an element is
passed over. -/
def loopTasks : List Nat → Heap σ → World σ → Nat × Heap σ × World σ
  | [], h, w => (0, h, w)
  | p :: ps, h, w =>
    match h p with
    | none => loopTasks ps h w
    | some t =>
      let r := t.tryRun w
      let w1 := if r.1 then yield r.2.2 else r.2.2
      let rest := loopTasks ps (h.set p r.2.1) w1
      ((if r.1 then 1 else 0) + rest.1, rest.2)

/-- `size_t loop(uint32_t delayMillis = 10)`. -/
def loop (tm : TaskManager) (delayMillis : Nat) (h : Heap σ) (w : World σ) :
    Nat × TaskManager × Heap σ × World σ :=
  -- uint32_t now = millis();
  let now := (millis w).1
  let r := loopTasks tm.tasks h (millis w).2
  let executed := r.1
  -- if (_stats && executed) _stats->record(millis() - now);
  let s : Option BinStatistics × World σ :=
    match tm.stats with
    | some st =>
      if executed ≠ 0 then (some (st.record (sub32 (millis r.2.2).1 now)), (millis r.2.2).2)
      else (some st, r.2.2)
    | none => (none, r.2.2)
  -- if (delayMillis) delay(delayMillis);
  let w3 := if delayMillis ≠ 0 then delay delayMillis s.2 else s.2
  (executed, { tm with stats := s.1 }, r.2.1, w3)

/-- The inner `for` of `waitForAllTasksToComplete`: true when no task of the
list reports `running()`. -/
def allDone : List Nat → Heap σ → Bool
  | [], _ => true
  | p :: ps, h =>
    match h p with
    | none => allDone ps h
    | some t => if t.running then false else allDone ps h

/-- `void waitForAllTasksToComplete(uint32_t _intervalMs = 10) const`. The
`do ... while (!allDone)` is unfolded at most `fuel` times; `none` means that
it had not ended by then. -/
def waitForAllTasksToComplete (tm : TaskManager) (h : Heap σ) (intervalMs : Nat) :
    Nat → World σ → Option (World σ)
  | 0, _ => none
  | fuel + 1, w =>
    if allDone tm.tasks h then some w
    else waitForAllTasksToComplete tm h intervalMs fuel (delay intervalMs w)

/-- The `for` of `pause()`. -/
def pauseTasks : List Nat → Heap σ → Heap σ
  | [], h => h
  | p :: ps, h =>
    match h p with
    | none => pauseTasks ps h
    | some t => pauseTasks ps (h.set p t.pause)

/-- `void pause()`: `pause()` on all tasks. -/
def pause (tm : TaskManager) (h : Heap σ) : TaskManager × Heap σ :=
  (tm, pauseTasks tm.tasks h)

/-- The `for` of `resume(delayMillis)`. -/
def resumeTasks (delayMillis : Nat) : List Nat → Heap σ → World σ → Heap σ × World σ
  | [], h, w => (h, w)
  | p :: ps, h, w =>
    match h p with
    | none => resumeTasks delayMillis ps h w
    | some t => resumeTasks delayMillis ps (h.set p (t.resume delayMillis w).1) (t.resume delayMillis w).2

/-- `void resume(uint32_t delayMillis = 0)`: `resume(delayMillis)` on all tasks. -/
def resume (tm : TaskManager) (delayMillis : Nat) (h : Heap σ) (w : World σ) :
    TaskManager × Heap σ × World σ :=
  (tm, resumeTasks delayMillis tm.tasks h w)

/-- A `for (auto& task : _tasks)` whose body is a task method that needs
neither clock nor environment. -/
def forTasks (f : Task σ → Task σ) : List Nat → Heap σ → Heap σ
  | [], h => h
  | p :: ps, h =>
    match h p with
    | none => forTasks f ps h
    | some t => forTasks f ps (h.set p (f t))

/-- `void setEnabled(bool enabled)`: `setEnabled(enabled)` on all tasks. -/
def setEnabled (tm : TaskManager) (enabled : Bool) (h : Heap σ) : TaskManager × Heap σ :=
  (tm, forTasks (fun t => t.setEnabled enabled) tm.tasks h)

/-- `void enableProfiling(uint8_t taskManagerBinCount, uint8_t taskBinCount,
uint32_t unitDividerMillis = 1)`. -/
def enableProfiling (tm : TaskManager) (taskManagerBinCount taskBinCount unitDividerMillis : Nat)
    (h : Heap σ) : TaskManager × Heap σ :=
  ({ tm with
      stats := match tm.stats with
        | none => some { binCount := taskManagerBinCount, unitDivider := unitDividerMillis,
                         observations := [] }
        | some st => some st },
    forTasks (fun t => t.enableProfiling taskBinCount unitDividerMillis) tm.tasks h)

/-- `void enableProfiling(uint8_t taskManagerBinCount = 12, uint32_t
unitDividerMillis = 1)`: the manager only. -/
def enableProfilingManager (tm : TaskManager) (taskManagerBinCount unitDividerMillis : Nat) :
    TaskManager :=
  { tm with
    stats := match tm.stats with
      | none => some { binCount := taskManagerBinCount, unitDivider := unitDividerMillis,
                       observations := [] }
      | some st => some st }

/-- `void disableProfiling()`. -/
def disableProfiling (tm : TaskManager) (h : Heap σ) : TaskManager × Heap σ :=
  ({ tm with stats := none }, forTasks (fun t => t.disableProfiling) tm.tasks h)

end TaskManager

/-! ## Drivers and concrete instances -/

/-- Successive `tryRun` polls of one task. Before each poll the environment
takes one step, which may change the clock, the application state and the log
in any way. Returns the results of the polls in order, the final task and the
final world. -/
def Task.polls {σ : Type} (t : Task σ) (w : World σ) :
    List (World σ → World σ) → List Bool × Task σ × World σ
  | [] => ([], t, w)
  | e :: es =>
    let r := t.tryRun (e w)
    let rest := Task.polls r.2.1 r.2.2 es
    (r.1 :: rest.1, rest.2)

/-- A world over a trivial application state whose clock returns the given
counter values in turn (and 0 once they are used up), with an empty log. -/
def worldOf (readings : List Nat) : World Unit :=
  { clock := fun k => readings.getD k 0, tick := 0, ext := (), trace := [] }

/-- A task over a trivial application state with the given scheduling members,
no predicate, no histogram, no callback and no data. -/
def taskOf (type : TaskType) (paused : Bool) (intervalMs lastEnd : Nat) : Task Unit :=
  { name := "T", fn := fun _ s => s, enabledPredicate := none, paused := paused, running := false,
    type := type, intervalMs := intervalMs, lastEnd := lastEnd, stats := none,
    doneCallback := none, params := 0 }

/-- A repeating task with an interval of 100 ms, as the application builds it:
`Task("A", fn).setInterval(100)`. -/
def taskA : Task Unit := (Task.new "A" TaskType.FOREVER (fun _ s => s)).setInterval 100

/-- The counter wraps while `taskA` runs: the poll reads 4294967290, the run
ends at counter value `2 ^ 32` (reading 0), and the next call would read 5. -/
def worldWrap : World Unit := worldOf [4294967290, 4294967296, 4294967301]

/-- The task of scenario B over an application state that counts the runs:
`Task("B", Task::Type::ONCE, fn).setInterval(100)`. -/
def taskB : Task Nat := (Task.new "B" TaskType.ONCE (fun _ n => n + 1)).setInterval 100

/-- The manager of scenario B: `taskB` lives at address 1 and is registered with
`addTask`. -/
def managerB : TaskManager := (TaskManager.new "tm").addTask 1

/-- The heap of scenario B: `taskB` at address 1, after its `resume()`. -/
def heapB (w : World Nat) : Heap Nat := Heap.empty.set 1 (taskB.resume 0 w).1

/-- The clock of scenario B: the first `loop()` starts at 150 and the run takes
2 ms; the second `loop()` starts 10 ms after the run ended. -/
def worldB : World Nat :=
  { clock := fun k => [150, 150, 152, 162, 162].getD k 0, tick := 0, ext := 0, trace := [] }

/-! ## Passes, operations and programs -/

/-- The name of the task whose work closure a logged call invokes. -/
def Event.fnName : Event → Option String
  | Event.fn self _ => some self.name
  | _ => none

/-- The work executions of a log: the names of the tasks whose work closure was
called, in the order of the calls. -/
def executions (trace : List Event) : List String := trace.filterMap Event.fnName

/-- Whether a logged call saw `running()` as it should: true inside the work
closure, false inside the completion callback. -/
def Event.runningAsExpected : Event → Bool
  | Event.fn self _ => self.running
  | Event.done self _ => !self.running
  | _ => true

/-- One step of `pollInOrder`: `tryRun()` on the task at address `p`, with the
`yield()` that follows a run, the outcome noted next to the address. -/
def pollStep {σ : Type} (acc : List (Nat × Bool) × Heap σ × World σ) (p : Nat) :
    List (Nat × Bool) × Heap σ × World σ :=
  match acc.2.1 p with
  | none => acc
  | some t =>
    (acc.1 ++ [(p, (t.tryRun acc.2.2).1)], acc.2.1.set p (t.tryRun acc.2.2).2.1,
      if (t.tryRun acc.2.2).1 then yield (t.tryRun acc.2.2).2.2 else (t.tryRun acc.2.2).2.2)

/-- One pass in the words of the specification: the task collection is iterated
once, in registration order, and `tryRun()` is called on each task; the
outcomes are noted in that order. -/
def pollInOrder {σ : Type} (tasks : List Nat) (h : Heap σ) (w : World σ) :
    List (Nat × Bool) × Heap σ × World σ :=
  tasks.foldl pollStep ([], h, w)

/-- The public methods of a task that can change the task or the world. The
accessors (`name()`, `type()`, `interval()`, `data()`, `paused()`, `running()`,
`enabled()`, `scheduled()`, `earlyRunRequested()`, `profiled()`, `statistics()`)
change neither. -/
inductive TaskOp (σ : Type) where
  | setType (type : TaskType)
  | setEnabled (enabled : Bool)
  | setEnabledWhen (predicate : σ → Bool)
  | setInterval (intervalMillis : Nat)
  | onDone (doneCallback : TaskView → Nat → σ → σ)
  | setData (params : Nat)
  | pause
  | resume (delayMillis : Nat)
  | remainingTme
  | shouldRun
  | tryRun
  | forceRun
  | requestEarlyRun
  | enableProfiling (binCount unitDividerMillis : Nat)
  | disableProfiling

/-- The task and the world after one method call on the task. -/
def Task.apply {σ : Type} (t : Task σ) (w : World σ) : TaskOp σ → Task σ × World σ
  | TaskOp.setType type => (t.setType type, w)
  | TaskOp.setEnabled enabled => (t.setEnabled enabled, w)
  | TaskOp.setEnabledWhen predicate => (t.setEnabledWhen predicate, w)
  | TaskOp.setInterval intervalMillis => (t.setInterval intervalMillis, w)
  | TaskOp.onDone doneCallback => (t.onDone doneCallback, w)
  | TaskOp.setData params => (t.setData params, w)
  | TaskOp.pause => (t.pause, w)
  | TaskOp.resume delayMillis => t.resume delayMillis w
  | TaskOp.remainingTme => (t, (t.remainingTme w).2)
  | TaskOp.shouldRun => (t, (t.shouldRun w).2)
  | TaskOp.tryRun => (t.tryRun w).2
  | TaskOp.forceRun => t.forceRun w
  | TaskOp.requestEarlyRun => (t.requestEarlyRun, w)
  | TaskOp.enableProfiling binCount unitDividerMillis =>
    (t.enableProfiling binCount unitDividerMillis, w)
  | TaskOp.disableProfiling => (t.disableProfiling, w)

/-- What a single-threaded application can do between two observations: build
a task of its own at an address, call a method of a task it holds, call a
method of the manager, or change its own state. -/
inductive Op (σ : Type) where
  | construct (ptr : Nat) (name : String) (type : TaskType) (fn : Nat → σ → σ)
  | onTask (ptr : Nat) (op : TaskOp σ)
  | newTask (ptr : Nat) (name : String) (type : TaskType) (fn : Nat → σ → σ)
  | addTask (ptr : Nat)
  | removeTask (ptr : Nat)
  | loop (delayMillis : Nat)
  | pause
  | resume (delayMillis : Nat)
  | setEnabled (enabled : Bool)
  | enableProfiling (taskManagerBinCount taskBinCount unitDividerMillis : Nat)
  | enableProfilingManager (taskManagerBinCount unitDividerMillis : Nat)
  | disableProfiling
  | app (f : σ → σ)

/-- A manager, the tasks of the program and the environment. -/
structure Program (σ : Type) where
  manager : TaskManager
  heap : Heap σ
  world : World σ

/-- The program right after `TaskManager(name)`: no task constructed yet. -/
def Program.init {σ : Type} (name : String) (w : World σ) : Program σ :=
  { manager := TaskManager.new name, heap := Heap.empty, world := w }

/-- The program after one operation. A method call through an address at
which no task lives does nothing. -/
def Program.step {σ : Type} (s : Program σ) : Op σ → Program σ
  | Op.construct ptr name type fn => { s with heap := s.heap.set ptr (Task.new name type fn) }
  | Op.onTask ptr op =>
    match s.heap ptr with
    | none => s
    | some t => { s with heap := s.heap.set ptr (t.apply s.world op).1, world := (t.apply s.world op).2 }
  | Op.newTask ptr name type fn =>
    { s with manager := (s.manager.newTask ptr name type fn s.heap).1,
             heap := (s.manager.newTask ptr name type fn s.heap).2 }
  | Op.addTask ptr => { s with manager := s.manager.addTask ptr }
  | Op.removeTask ptr => { s with manager := s.manager.removeTask ptr }
  | Op.loop delayMillis =>
    { manager := (s.manager.loop delayMillis s.heap s.world).2.1,
      heap := (s.manager.loop delayMillis s.heap s.world).2.2.1,
      world := (s.manager.loop delayMillis s.heap s.world).2.2.2 }
  | Op.pause => { s with heap := (s.manager.pause s.heap).2 }
  | Op.resume delayMillis =>
    { s with heap := (s.manager.resume delayMillis s.heap s.world).2.1,
             world := (s.manager.resume delayMillis s.heap s.world).2.2 }
  | Op.setEnabled enabled => { s with heap := (s.manager.setEnabled enabled s.heap).2 }
  | Op.enableProfiling a b c =>
    { s with manager := (s.manager.enableProfiling a b c s.heap).1,
             heap := (s.manager.enableProfiling a b c s.heap).2 }
  | Op.enableProfilingManager a c => { s with manager := s.manager.enableProfilingManager a c }
  | Op.disableProfiling =>
    { s with manager := (s.manager.disableProfiling s.heap).1,
             heap := (s.manager.disableProfiling s.heap).2 }
  | Op.app f => { s with world := { s.world with ext := f s.world.ext } }

/-- The program after a sequence of operations. -/
def Program.exec {σ : Type} (s : Program σ) (ops : List (Op σ)) : Program σ :=
  ops.foldl Program.step s

/-- No task of the heap reports `running()`. -/
def Idle {σ : Type} (h : Heap σ) : Prop := ∀ (p : Nat) (t : Task σ), h p = some t → t.running = false

/-- Every call logged between two worlds saw `running()` as it should. -/
def TraceOk {σ : Type} (w v : World σ) : Prop :=
  ∀ ev ∈ v.trace, ev ∈ w.trace ∨ ev.runningAsExpected = true

/-- A completion callback that stores the reported time in the application
state. -/
def storeElapsed : TaskView → Nat → Nat → Nat := fun _ elapsed _ => elapsed

/-- A profiled repeating task with `storeElapsed` as completion callback. -/
def taskC : Task Nat :=
  ((Task.newForever "C" (fun _ n => n)).onDone storeElapsed).enableProfiling 10 1

/-- The counter wraps while the work of `taskC` runs: it starts at 4294967290
and returns 10 ms later, at reading 4. -/
def worldC : World Nat :=
  { clock := fun k => [4294967290, 4294967300].getD k 0, tick := 0, ext := 0, trace := [] }

/-- Three tasks over an application state that counts the runs: `"A"` at
address 1 runs at every poll, `"B"` at address 2 is a ONCE task that has not been
resumed, `"D"` at address 3 has interval 100 and has never run. -/
def heapD : Heap Nat :=
  ((Heap.empty.set 1 (Task.newForever "A" (fun _ n => n + 1))).set 2 taskB).set 3
    ((Task.newForever "D" (fun _ n => n + 1)).setInterval 100)

/-- A manager with the three tasks of `heapD`, registered in the order 1, 2, 3. -/
def managerD : TaskManager := (((TaskManager.new "tm").addTask 1).addTask 2).addTask 3

/-- A world over the run-counting application state with the given clock. -/
def worldN (readings : List Nat) : World Nat :=
  { clock := fun k => readings.getD k 0, tick := 0, ext := 0, trace := [] }

/-- A session of an application: it builds a task of its own and registers it,
lets the manager create a ONCE task and resumes it, runs a pass, forces a run,
pauses and resumes all tasks and runs another pass. -/
def sessionE : List (Op Nat) :=
  [Op.construct 1 "A" TaskType.FOREVER (fun _ n => n + 1), Op.addTask 1,
    Op.newTask 2 "B" TaskType.ONCE (fun _ n => n + 1), Op.onTask 2 (TaskOp.resume 0),
    Op.loop 10, Op.onTask 1 TaskOp.forceRun, Op.pause, Op.resume 5, Op.loop 0]

/-! # Properties -/

/-! ## Arithmetic of the millisecond counter -/

/-- The subtraction of the source is subtraction of integers modulo `2 ^ 32`. -/
theorem sub32_int (a b : Nat) (hb : b < 2 ^ 32) :
    ((sub32 a b : Nat) : Int) = ((a : Int) - b) % 2 ^ 32 := by
  unfold sub32
  omega

/-- A reading taken `d` ms after `t0` is `d` away from `t0`, across the wrap too. -/
theorem sub32_add (t0 d : Nat) (h0 : t0 < 2 ^ 32) (hd : d < 2 ^ 32) :
    sub32 ((t0 + d) % 2 ^ 32) t0 = d := by
  unfold sub32
  omega

/-- A difference of readings is a `uint32_t`. -/
theorem sub32_lt (a b : Nat) : sub32 a b < 2 ^ 32 := by
  unfold sub32
  omega

namespace Task

variable {σ : Type}

/-! ## shouldRun and tryRun -/

/-- The value `shouldRun()` returns, as one boolean expression. -/
theorem shouldRun_fst (t : Task σ) (w : World σ) :
    (t.shouldRun w).1 =
      (!t.paused && t.enabled w &&
        (decide (t.lastEnd = 0) || decide (t.intervalMs = 0) ||
          decide (sub32 w.reading t.lastEnd ≥ t.intervalMs))) := by
  unfold shouldRun millis
  cases hp : t.paused <;> cases he : t.enabled w <;> simp
  by_cases h : t.lastEnd = 0 ∨ t.intervalMs = 0
  · rcases h with h | h <;> simp [h]
  · have h1 : t.lastEnd ≠ 0 := fun h0 => h (Or.inl h0)
    have h2 : t.intervalMs ≠ 0 := fun h0 => h (Or.inr h0)
    simp [h1, h2]

/-- The value `tryRun()` returns is the value of `shouldRun()`. -/
theorem tryRun_fst (t : Task σ) (w : World σ) : (t.tryRun w).1 = (t.shouldRun w).1 := by
  unfold tryRun shouldRun
  split
  · rfl
  · split
    · rfl
    · split <;> simp_all

/-- A `tryRun()` that returns false changes neither task, log nor application state. -/
theorem tryRun_of_false (t : Task σ) (w : World σ) (h : (t.tryRun w).1 = false) :
    (t.tryRun w).2.1 = t ∧ (t.tryRun w).2.2.trace = w.trace ∧ (t.tryRun w).2.2.ext = w.ext ∧
      (t.tryRun w).2.2.clock = w.clock := by
  unfold tryRun at h ⊢
  by_cases h1 : (t.paused || !t.enabled w) = true
  · simp only [if_pos h1, and_self]
  · rw [if_neg h1] at h ⊢
    by_cases h2 : t.lastEnd = 0 ∨ t.intervalMs = 0
    · rw [if_pos h2] at h
      cases h
    · rw [if_neg h2] at h ⊢
      by_cases h3 : sub32 (millis w).1 t.lastEnd ≥ t.intervalMs
      · rw [if_pos h3] at h
        cases h
      · rw [if_neg h3]
        exact ⟨rfl, rfl, rfl, rfl⟩

/-- A `tryRun()` that returns true found the task not paused and enabled, and
ran it with the reading of its poll. -/
theorem tryRun_of_true (t : Task σ) (w : World σ) (h : (t.tryRun w).1 = true) :
    t.paused = false ∧ t.enabled w = true ∧ (t.tryRun w).2 = t.run w.reading w.next := by
  unfold tryRun at h ⊢
  by_cases h1 : (t.paused || !t.enabled w) = true
  · rw [if_pos h1] at h
    cases h
  · rw [if_neg h1]
    rw [if_neg h1] at h
    have hp : t.paused = false ∧ t.enabled w = true := by
      cases hp : t.paused <;> cases he : t.enabled w <;> simp_all
    refine ⟨hp.1, hp.2, ?_⟩
    by_cases h2 : t.lastEnd = 0 ∨ t.intervalMs = 0
    · rw [if_pos h2]
      rfl
    · rw [if_neg h2] at h ⊢
      by_cases h3 : sub32 (millis w).1 t.lastEnd ≥ t.intervalMs
      · rw [if_pos h3]
        rfl
      · rw [if_neg h3] at h
        cases h

/-- The interval window of C1 for a last run that ended at a reading other
than 0: `shouldRun()` is false for `d < I` and true from `d = I` on. -/
theorem shouldRun_window (t : Task σ) (w : World σ) (t0 d : Nat)
    (hlast : t.lastEnd = t0) (h0 : t0 ≠ 0) (ht0 : t0 < 2 ^ 32) (hI : 0 < t.intervalMs)
    (hd : d < 2 ^ 32) (hp : t.paused = false) (he : t.enabled w = true)
    (hw : w.reading = (t0 + d) % 2 ^ 32) :
    (t.shouldRun w).1 = decide (t.intervalMs ≤ d) := by
  have hI0 : t.intervalMs ≠ 0 := by omega
  rw [shouldRun_fst, hp, he, hlast, hw, sub32_add t0 d ht0 hd]
  simp [h0, hI0]

/-- C1, at the failing input: `taskA` (repeating, interval 100 ms) is polled at
reading 4294967290 and runs; its run ends when the counter has wrapped to
reading 0, so `lastEnd = 0`. At the next reading, 5, only 5 ms after the run
ended, `shouldRun()` is already true. -/
theorem shouldRun_true_before_interval_when_run_ended_at_zero :
    (taskA.tryRun worldWrap).1 = true ∧
      (taskA.tryRun worldWrap).2.1.lastEnd = 0 ∧
      (taskA.tryRun worldWrap).2.1.intervalMs = 100 ∧
      (taskA.tryRun worldWrap).2.1.paused = false ∧
      (taskA.tryRun worldWrap).2.1.enabled (taskA.tryRun worldWrap).2.2 = true ∧
      (taskA.tryRun worldWrap).2.2.reading = (0 + 5) % 2 ^ 32 ∧
      ((taskA.tryRun worldWrap).2.1.shouldRun (taskA.tryRun worldWrap).2.2).1 = true := by
  decide

/-- C2: `shouldRun()` is true exactly when the task is not paused, `enabled()`
is true, and `lastEnd == 0` or `interval == 0` or the difference `now - lastEnd`
taken modulo `2 ^ 32` is at least the interval, where `now` is the reading of
the clock at the call. -/
theorem shouldRun_iff (t : Task σ) (w : World σ) (hwf : t.WF) :
    (t.shouldRun w).1 = true ↔
      (t.paused = false ∧ t.enabled w = true ∧
        (t.lastEnd = 0 ∨ t.intervalMs = 0 ∨
          ((w.reading : Int) - (t.lastEnd : Int)) % 2 ^ 32 ≥ (t.intervalMs : Int))) := by
  have hs := sub32_int w.reading t.lastEnd hwf.2
  rw [shouldRun_fst, ← hs]
  simp [or_assoc, and_assoc]

theorem shouldRun_iff_witness :
    (taskOf TaskType.FOREVER false 100 4294967000).WF ∧
      (((taskOf TaskType.FOREVER false 100 4294967000).shouldRun (worldOf [50])).1 = true ↔
        ((taskOf TaskType.FOREVER false 100 4294967000).paused = false ∧
          (taskOf TaskType.FOREVER false 100 4294967000).enabled (worldOf [50]) = true ∧
          ((taskOf TaskType.FOREVER false 100 4294967000).lastEnd = 0 ∨
            (taskOf TaskType.FOREVER false 100 4294967000).intervalMs = 0 ∨
            (((worldOf [50]).reading : Int) -
                ((taskOf TaskType.FOREVER false 100 4294967000).lastEnd : Int)) % 2 ^ 32 ≥
              ((taskOf TaskType.FOREVER false 100 4294967000).intervalMs : Int)))) :=
  ⟨by decide, shouldRun_iff _ _ (by decide)⟩

/-- C3: on the same task state and the same world (hence the same clock
reading), `tryRun()` returns the value `shouldRun()` returns; when that value is
true the task and the log of calls are those the run of the work produces, and
when it is false they are the ones before the call. -/
theorem tryRun_returns_shouldRun (t : Task σ) (w : World σ) :
    (t.tryRun w).1 = (t.shouldRun w).1 ∧
      (t.tryRun w).2.1 = (if (t.shouldRun w).1 then (t.run w.reading w.next).1 else t) ∧
      (t.tryRun w).2.2.trace =
        (if (t.shouldRun w).1 then (t.run w.reading w.next).2.trace else w.trace) := by
  refine ⟨tryRun_fst t w, ?_, ?_⟩
  · cases h : (t.tryRun w).1
    · rw [← tryRun_fst, h, (tryRun_of_false t w h).1]
      rfl
    · rw [← tryRun_fst, h, (tryRun_of_true t w h).2.2]
      rfl
  · cases h : (t.tryRun w).1
    · rw [← tryRun_fst, h, (tryRun_of_false t w h).2.1]
      rfl
    · rw [← tryRun_fst, h, (tryRun_of_true t w h).2.2]
      rfl

/-- C4: a `tryRun()` that returns false has no side effect: the task is left
exactly as it was (paused, running, type, interval, lastEnd, and the histogram
with its observations), nothing is added to the log of calls (neither the work
closure nor the completion callback is invoked), and the application state is
untouched. -/
theorem tryRun_false_no_side_effect (t : Task σ) (w : World σ)
    (h : (t.tryRun w).1 = false) :
    (t.tryRun w).2.1 = t ∧ (t.tryRun w).2.2.trace = w.trace ∧
      (t.tryRun w).2.2.ext = w.ext ∧ (t.tryRun w).2.2.clock = w.clock :=
  tryRun_of_false t w h

theorem tryRun_false_no_side_effect_witness :
    ((taskOf TaskType.FOREVER false 100 1000).tryRun (worldOf [1050])).1 = false ∧
      ((taskOf TaskType.FOREVER false 100 1000).tryRun (worldOf [1050])).2.1 =
        taskOf TaskType.FOREVER false 100 1000 ∧
      ((taskOf TaskType.FOREVER false 100 1000).tryRun (worldOf [1050])).2.2.trace =
        (worldOf [1050]).trace ∧
      ((taskOf TaskType.FOREVER false 100 1000).tryRun (worldOf [1050])).2.2.ext =
        (worldOf [1050]).ext ∧
      ((taskOf TaskType.FOREVER false 100 1000).tryRun (worldOf [1050])).2.2.clock =
        (worldOf [1050]).clock :=
  ⟨by decide, tryRun_false_no_side_effect _ _ (by decide)⟩

/-! ## Effect of a run -/

/-- The task after `_run(now)`. -/
theorem run_task (t : Task σ) (now : Nat) (w : World σ) :
    (t.run now w).1 =
      { t with
        running := false
        lastEnd := w.reading
        paused := t.paused || decide (t.type = TaskType.ONCE)
        stats := t.stats.map (fun s => s.record (sub32 w.reading now)) } := by
  unfold run millis World.reading
  cases hs : t.stats <;> cases hty : t.type <;> cases hp : t.paused <;> simp [hs, hty, hp]

/-- The world after `_run(now)`. -/
theorem run_world (t : Task σ) (now : Nat) (w : World σ) :
    (t.run now w).2 =
      match t.doneCallback with
      | some cb =>
        { w.next with
          ext := cb (t.run now w).1.view (sub32 w.reading now) (t.fn t.params w.ext)
          trace := w.trace ++ [Event.fn { t.view with running := true } t.params,
            Event.done (t.run now w).1.view (sub32 w.reading now)] }
      | none =>
        { w.next with
          ext := t.fn t.params w.ext
          trace := w.trace ++ [Event.fn { t.view with running := true } t.params] } := by
  unfold run millis World.reading World.next view
  cases hs : t.stats <;> cases hty : t.type <;> cases hcb : t.doneCallback <;> simp [hs, hty, hcb]

/-- C5: when `tryRun()` returns true, the log of calls grows by exactly one call
of the work closure, made with the data pointer of the task while `running()`
was true (followed by the call of the completion callback when one is attached),
and the application state is the one the work closure (then the callback)
produced; afterwards `running()` is false, `lastEnd` is the reading of the clock
taken after the work returned, the task was not paused before and is paused
afterwards exactly when its type is ONCE, and type and interval are unchanged. -/
theorem tryRun_true_effect (t : Task σ) (w : World σ) (h : (t.tryRun w).1 = true) :
    (t.tryRun w).2.2.trace =
        w.trace ++ Event.fn { t.view with running := true } t.params ::
          (match t.doneCallback with
            | some _ => [Event.done (t.tryRun w).2.1.view (sub32 w.next.reading w.reading)]
            | none => []) ∧
      (t.tryRun w).2.2.ext =
        (match t.doneCallback with
          | some cb =>
            cb (t.tryRun w).2.1.view (sub32 w.next.reading w.reading) (t.fn t.params w.ext)
          | none => t.fn t.params w.ext) ∧
      (t.tryRun w).2.1.running = false ∧
      (t.tryRun w).2.1.lastEnd = w.next.reading ∧
      t.paused = false ∧
      (t.tryRun w).2.1.paused = decide (t.type = TaskType.ONCE) ∧
      (t.tryRun w).2.1.type = t.type ∧
      (t.tryRun w).2.1.intervalMs = t.intervalMs := by
  obtain ⟨hp, -, hrun⟩ := tryRun_of_true t w h
  have hw := run_world t w.reading w.next
  have ht := run_task t w.reading w.next
  rw [← hrun] at hw ht
  refine ⟨?_, ?_, ?_, ?_, hp, ?_, ?_, ?_⟩
  · rw [hw]
    cases t.doneCallback <;> simp [World.next]
  · rw [hw]
    cases t.doneCallback <;> simp [World.next]
  · rw [ht]
  · rw [ht]
  · rw [ht, hp]
    simp
  · rw [ht]
  · rw [ht]

theorem tryRun_true_effect_witness :
    ((taskOf TaskType.ONCE false 100 1000).tryRun (worldOf [1150, 1153])).1 = true ∧
      ((taskOf TaskType.ONCE false 100 1000).tryRun (worldOf [1150, 1153])).2.1.running = false ∧
      ((taskOf TaskType.ONCE false 100 1000).tryRun (worldOf [1150, 1153])).2.1.lastEnd = 1153 ∧
      ((taskOf TaskType.ONCE false 100 1000).tryRun (worldOf [1150, 1153])).2.1.paused = true :=
  ⟨by decide,
    (tryRun_true_effect (taskOf TaskType.ONCE false 100 1000) (worldOf [1150, 1153])
      (by decide)).2.2.1,
    (tryRun_true_effect (taskOf TaskType.ONCE false 100 1000) (worldOf [1150, 1153])
      (by decide)).2.2.2.1,
    (tryRun_true_effect (taskOf TaskType.ONCE false 100 1000) (worldOf [1150, 1153])
      (by decide)).2.2.2.2.2.1⟩

/-! ## Paused tasks -/

/-- A paused task should not run; the clock is not read. -/
theorem shouldRun_of_paused (t : Task σ) (w : World σ) (hp : t.paused = true) :
    t.shouldRun w = (false, w) := by
  unfold shouldRun
  simp [hp]

/-- A paused task is not run; the clock is not read. -/
theorem tryRun_of_paused (t : Task σ) (w : World σ) (hp : t.paused = true) :
    t.tryRun w = (false, t, w) := by
  unfold tryRun
  simp [hp]

/-- Polls of a paused task all return false and leave no mark on the world. -/
theorem polls_of_paused (t : Task σ) (hp : t.paused = true) (envs : List (World σ → World σ)) :
    ∀ w : World σ, t.polls w envs =
      (List.replicate envs.length false, t, envs.foldl (fun v e => e v) w) := by
  induction envs with
  | nil => intro w; rfl
  | cons e es ih =>
    intro w
    simp only [polls, tryRun_of_paused t (e w) hp, ih, List.length_cons, List.replicate_succ,
      List.foldl_cons]

/-- C6: a ONCE task is paused immediately after a `tryRun()` that returned true;
from then on `shouldRun()` is false in every world, and any number of further
`tryRun()` polls, whatever the clock and the application state do in between,
all return false and leave the task and the world as they found them (no call
of the work closure is logged), so the work is not run again before the next
`resume()`. In scenario B the task is created paused with interval 100, is
resumed and put in a manager; the `loop()` that starts at reading 150 returns
1, runs the work once and leaves the task paused with `lastEnd = 152`, and the
`loop()` that starts at reading 162, 10 ms later, returns 0 and logs nothing but
its closing `delay(10)`. -/
theorem once_task_runs_once_per_resume (t : Task σ) (w : World σ)
    (hty : t.type = TaskType.ONCE) (h : (t.tryRun w).1 = true) :
    (t.tryRun w).2.1.paused = true ∧
      (∀ v : World σ, (t.tryRun w).2.1.shouldRun v = (false, v)) ∧
      (∀ envs : List (World σ → World σ),
        (t.tryRun w).2.1.polls (t.tryRun w).2.2 envs =
          (List.replicate envs.length false, (t.tryRun w).2.1,
            envs.foldl (fun v e => e v) (t.tryRun w).2.2)) ∧
      (taskB.paused = true ∧ taskB.intervalMs = 100 ∧ taskB.type = TaskType.ONCE ∧
        (taskB.resume 0 worldB).1.paused = false ∧
        (managerB.loop 10 (heapB worldB) worldB).1 = 1 ∧
        ((managerB.loop 10 (heapB worldB) worldB).2.2.1 1).map
          (fun b => (b.paused, b.lastEnd)) = some (true, 152) ∧
        (managerB.loop 10 (heapB worldB) worldB).2.2.2.ext = 1 ∧
        (managerB.loop 10 (heapB worldB) worldB).2.2.2.reading = 162 ∧
        ((managerB.loop 10 (heapB worldB) worldB).2.1.loop 10
          (managerB.loop 10 (heapB worldB) worldB).2.2.1
          (managerB.loop 10 (heapB worldB) worldB).2.2.2).1 = 0 ∧
        ((managerB.loop 10 (heapB worldB) worldB).2.1.loop 10
          (managerB.loop 10 (heapB worldB) worldB).2.2.1
          (managerB.loop 10 (heapB worldB) worldB).2.2.2).2.2.2.ext = 1 ∧
        ((managerB.loop 10 (heapB worldB) worldB).2.1.loop 10
          (managerB.loop 10 (heapB worldB) worldB).2.2.1
          (managerB.loop 10 (heapB worldB) worldB).2.2.2).2.2.2.trace =
            (managerB.loop 10 (heapB worldB) worldB).2.2.2.trace ++ [Event.delay 10]) := by
  have hp : (t.tryRun w).2.1.paused = true := by
    rw [(tryRun_of_true t w h).2.2, run_task, hty]
    simp
  exact ⟨hp, fun v => shouldRun_of_paused _ v hp, fun envs => polls_of_paused _ hp envs _,
    by decide⟩

theorem once_task_runs_once_per_resume_witness :
    (taskOf TaskType.ONCE false 100 1000).type = TaskType.ONCE ∧
      ((taskOf TaskType.ONCE false 100 1000).tryRun (worldOf [1150, 1153])).1 = true ∧
      ((taskOf TaskType.ONCE false 100 1000).tryRun (worldOf [1150, 1153])).2.1.paused = true ∧
      ∀ v : World Unit,
        ((taskOf TaskType.ONCE false 100 1000).tryRun (worldOf [1150, 1153])).2.1.shouldRun v =
          (false, v) :=
  ⟨rfl, by decide,
    (once_task_runs_once_per_resume (taskOf TaskType.ONCE false 100 1000)
      (worldOf [1150, 1153]) rfl (by decide)).1,
    (once_task_runs_once_per_resume (taskOf TaskType.ONCE false 100 1000)
      (worldOf [1150, 1153]) rfl (by decide)).2.1⟩

/-! ## resume, pause, requestEarlyRun, forceRun -/

/-- The delay window of C7 for a `resume(d)` called at a reading other than 0:
the task is not paused, has interval `d`, and `shouldRun()` is false for
`e < d` and true from `e = d` on. -/
theorem resume_window (t : Task σ) (w : World σ) (d : Nat) (hd : d ≠ 0)
    (hw : w.reading ≠ 0) :
    (t.resume d w).1.paused = false ∧ (t.resume d w).1.intervalMs = d ∧
      (t.resume d w).1.lastEnd = w.reading ∧
      ∀ (v : World σ) (e : Nat), e < 2 ^ 32 → t.enabled v = true →
        v.reading = (w.reading + e) % 2 ^ 32 →
        ((t.resume d w).1.shouldRun v).1 = decide (d ≤ e) := by
  have hr : (t.resume d w).1 =
      { t with intervalMs := d, lastEnd := w.reading, paused := false } := by
    unfold resume
    rw [if_pos hd]
    rfl
  refine ⟨by rw [hr], by rw [hr], by rw [hr], ?_⟩
  intro v e he hen hv
  have hlt : w.reading < 2 ^ 32 := Nat.mod_lt _ (by norm_num)
  have := shouldRun_window (t.resume d w).1 v w.reading e (by rw [hr]) hw hlt
    (by rw [hr]; exact Nat.pos_of_ne_zero hd) he (by rw [hr])
    (by rw [hr]; exact hen) hv
  rw [this, hr]

/-- C7, at the failing input: a paused task is resumed with `resume(100)` at the
moment the counter reads 0 (counter value `2 ^ 32`); it is then not paused,
with interval 100 and `lastEnd = 0`, and at reading 5, only 5 ms after the call,
`shouldRun()` is already true. -/
theorem shouldRun_true_before_delay_when_resumed_at_zero :
    (worldOf [4294967296, 4294967301]).reading = 0 ∧
      ((taskOf TaskType.FOREVER true 0 777).resume 100 (worldOf [4294967296, 4294967301])).1.paused
        = false ∧
      ((taskOf TaskType.FOREVER true 0 777).resume 100
        (worldOf [4294967296, 4294967301])).1.intervalMs = 100 ∧
      ((taskOf TaskType.FOREVER true 0 777).resume 100
        (worldOf [4294967296, 4294967301])).1.lastEnd = 0 ∧
      ((taskOf TaskType.FOREVER true 0 777).resume 100
        (worldOf [4294967296, 4294967301])).2.reading = (0 + 5) % 2 ^ 32 ∧
      (((taskOf TaskType.FOREVER true 0 777).resume 100
          (worldOf [4294967296, 4294967301])).1.shouldRun
        ((taskOf TaskType.FOREVER true 0 777).resume 100
          (worldOf [4294967296, 4294967301])).2).1 = true := by
  decide

/-- C8: after `pause()`, `shouldRun()` and `tryRun()` return false in every
world (whatever the clock reads, whatever the interval and `lastEnd`, 0
included), `tryRun()` leaving task and world untouched; and on a task that was
not paused, `pause()` followed by `resume()` without delay gives back the
original state without reading the clock, so `shouldRun()` then returns what it
returns on the original task. -/
theorem pause_blocks_and_resume_restores (t : Task σ) :
    (∀ w : World σ, t.pause.shouldRun w = (false, w)) ∧
      (∀ w : World σ, t.pause.tryRun w = (false, t.pause, w)) ∧
      (t.paused = false →
        (∀ w : World σ, t.pause.resume 0 w = (t, w)) ∧
        (∀ w v : World σ, (t.pause.resume 0 w).1.shouldRun v = t.shouldRun v)) := by
  refine ⟨fun w => shouldRun_of_paused _ w rfl, fun w => tryRun_of_paused _ w rfl, ?_⟩
  intro hp
  have hr : ∀ w : World σ, t.pause.resume 0 w = (t, w) := by
    intro w
    unfold resume pause
    cases t
    simp_all
  exact ⟨hr, fun w v => by rw [hr]⟩

theorem pause_blocks_and_resume_restores_witness :
    (taskOf TaskType.FOREVER false 100 0).paused = false ∧
      ((taskOf TaskType.FOREVER false 100 0).shouldRun (worldOf [7])).1 = true ∧
      ((taskOf TaskType.FOREVER false 100 0).pause.shouldRun (worldOf [7])).1 = false ∧
      (((taskOf TaskType.FOREVER false 100 0).pause.resume 0 (worldOf [3])).1.shouldRun
        (worldOf [7])).1 = true :=
  ⟨rfl, by decide,
    congrArg Prod.fst
      ((pause_blocks_and_resume_restores (taskOf TaskType.FOREVER false 100 0)).1 (worldOf [7])),
    (congrArg Prod.fst
      (((pause_blocks_and_resume_restores (taskOf TaskType.FOREVER false 100 0)).2.2 rfl).2
        (worldOf [3]) (worldOf [7]))).trans (by decide)⟩

/-- C9: on a task that is not paused, `requestEarlyRun()` sets `lastEnd` to 0
and changes nothing else (paused, the enabled predicate, type, interval and the
other members keep their values); afterwards, in every world in which the task
is enabled, `shouldRun()` returns true without reading the clock and `tryRun()`
returns true, whatever the interval and the former `lastEnd`. -/
theorem requestEarlyRun_makes_eligible (t : Task σ) (w : World σ)
    (hp : t.paused = false) (he : t.enabled w = true) :
    t.requestEarlyRun.shouldRun w = (true, w) ∧
      (t.requestEarlyRun.tryRun w).1 = true ∧
      t.requestEarlyRun = { t with lastEnd := 0 } ∧
      t.requestEarlyRun.lastEnd = 0 ∧
      t.requestEarlyRun.paused = t.paused ∧
      t.requestEarlyRun.enabledPredicate = t.enabledPredicate ∧
      (∀ v : World σ, t.requestEarlyRun.enabled v = t.enabled v) ∧
      t.requestEarlyRun.type = t.type ∧
      t.requestEarlyRun.intervalMs = t.intervalMs := by
  have hs : t.requestEarlyRun.shouldRun w = (true, w) := by
    have he2 : t.requestEarlyRun.enabled w = true := he
    unfold shouldRun
    rw [he2]
    simp [requestEarlyRun, hp]
  refine ⟨hs, ?_, rfl, rfl, rfl, rfl, fun _ => rfl, rfl, rfl⟩
  rw [tryRun_fst, hs]

theorem requestEarlyRun_makes_eligible_witness :
    (taskOf TaskType.FOREVER false 100 1000).paused = false ∧
      (taskOf TaskType.FOREVER false 100 1000).enabled (worldOf [1001, 1002]) = true ∧
      ((taskOf TaskType.FOREVER false 100 1000).shouldRun (worldOf [1001, 1002])).1 = false ∧
      ((taskOf TaskType.FOREVER false 100 1000).requestEarlyRun.tryRun
        (worldOf [1001, 1002])).1 = true :=
  ⟨rfl, rfl, by decide,
    (requestEarlyRun_makes_eligible (taskOf TaskType.FOREVER false 100 1000)
      (worldOf [1001, 1002]) rfl rfl).2.1⟩

/-- C10: in every task state, paused, disabled or not yet due included,
`forceRun()` logs exactly one call of the work closure, made with the data
pointer of the task while `running()` was true, followed by the call of the
completion callback when one is attached, with
`elapsed = (completion reading - start reading) mod 2 ^ 32`; the histogram, when
attached, receives that same value as one more observation; afterwards
`running()` is false, `lastEnd` is the completion reading, the task is paused
if it was paused or its type is ONCE, and type and interval are unchanged. This
is the bookkeeping of `tryRun()`: whenever `tryRun()` returns true, it yields
the very task and world `forceRun()` yields from the same task and world. -/
theorem forceRun_same_bookkeeping (t : Task σ) (w : World σ) :
    (t.forceRun w).2.trace =
        w.trace ++ Event.fn { t.view with running := true } t.params ::
          (match t.doneCallback with
            | some _ => [Event.done (t.forceRun w).1.view (sub32 w.next.reading w.reading)]
            | none => []) ∧
      (t.forceRun w).2.ext =
        (match t.doneCallback with
          | some cb =>
            cb (t.forceRun w).1.view (sub32 w.next.reading w.reading) (t.fn t.params w.ext)
          | none => t.fn t.params w.ext) ∧
      (t.forceRun w).1.stats =
        t.stats.map (fun s => s.record (sub32 w.next.reading w.reading)) ∧
      (t.forceRun w).1.running = false ∧
      (t.forceRun w).1.lastEnd = w.next.reading ∧
      (t.forceRun w).1.paused = (t.paused || decide (t.type = TaskType.ONCE)) ∧
      (t.forceRun w).1.type = t.type ∧
      (t.forceRun w).1.intervalMs = t.intervalMs ∧
      ((t.tryRun w).1 = true → (t.tryRun w).2 = t.forceRun w) := by
  have hf : t.forceRun w = t.run w.reading w.next := rfl
  have hw := run_world t w.reading w.next
  have ht := run_task t w.reading w.next
  rw [← hf] at hw ht
  refine ⟨?_, ?_, ?_, ?_, ?_, ?_, ?_, ?_, ?_⟩
  · rw [hw]
    cases t.doneCallback <;> simp [World.next]
  · rw [hw]
    cases t.doneCallback <;> simp [World.next]
  · rw [ht]
  · rw [ht]
  · rw [ht]
  · rw [ht]
  · rw [ht]
  · rw [ht]
  · intro h
    rw [hf]
    exact (tryRun_of_true t w h).2.2

theorem forceRun_same_bookkeeping_witness :
    ((taskOf TaskType.ONCE false 0 0).tryRun (worldOf [10, 12])).1 = true ∧
      ((taskOf TaskType.ONCE false 0 0).tryRun (worldOf [10, 12])).2 =
        (taskOf TaskType.ONCE false 0 0).forceRun (worldOf [10, 12]) :=
  ⟨by decide,
    (forceRun_same_bookkeeping (taskOf TaskType.ONCE false 0 0) (worldOf [10, 12])).2.2.2.2.2.2.2.2
      (by decide)⟩

/-! ## setType and construction -/

/-- C11: `setType(T)` on a task whose type is already `T` returns the task
unchanged, so `paused` keeps its value (a paused FOREVER task stays paused, a
resumed ONCE task stays resumed); on a task of the other type it sets the type
to `T` and `paused` to true for ONCE and to false for FOREVER, and changes no
other member, interval and `lastEnd` included. -/
theorem setType_effect (t : Task σ) (T : TaskType) :
    (t.type = T → t.setType T = t) ∧
      (t.type = TaskType.FOREVER → (t.pause.setType TaskType.FOREVER).paused = true) ∧
      (t.type = TaskType.ONCE → ∀ w : World σ,
        ((t.resume 0 w).1.setType TaskType.ONCE).paused = false) ∧
      (t.type ≠ T →
        t.setType T = { t with type := T, paused := decide (T = TaskType.ONCE) } ∧
        (t.setType T).type = T ∧
        (t.setType T).paused = decide (T = TaskType.ONCE) ∧
        (t.setType T).intervalMs = t.intervalMs ∧
        (t.setType T).lastEnd = t.lastEnd) := by
  refine ⟨fun h => ?_, fun h => ?_, fun h w => ?_, fun h => ?_⟩
  · unfold setType
    rw [if_pos h]
  · unfold setType pause
    simp [h]
  · unfold setType resume
    simp [h]
  · have hs : t.setType T = { t with type := T, paused := decide (T = TaskType.ONCE) } := by
      unfold setType
      rw [if_neg h]
    rw [hs]
    exact ⟨rfl, rfl, rfl, rfl, rfl⟩

theorem setType_effect_witness :
    (taskOf TaskType.FOREVER true 100 7).type = TaskType.FOREVER ∧
      ((taskOf TaskType.FOREVER true 100 7).setType TaskType.FOREVER).paused = true ∧
      (taskOf TaskType.FOREVER true 100 7).type ≠ TaskType.ONCE ∧
      ((taskOf TaskType.FOREVER false 100 7).setType TaskType.ONCE).paused = true ∧
      ((taskOf TaskType.FOREVER false 100 7).setType TaskType.ONCE).lastEnd = 7 :=
  ⟨rfl,
    congrArg Task.paused
      ((setType_effect (taskOf TaskType.FOREVER true 100 7) TaskType.FOREVER).1 rfl),
    by decide,
    ((setType_effect (taskOf TaskType.FOREVER false 100 7) TaskType.ONCE).2.2.2
      (by decide)).2.2.1,
    ((setType_effect (taskOf TaskType.FOREVER false 100 7) TaskType.ONCE).2.2.2
      (by decide)).2.2.2.2⟩

/-- The task a constructor returns, member by member. -/
theorem new_eq (name : String) (type : TaskType) (fn : Nat → σ → σ) :
    Task.new name type fn =
      { name := name, fn := fn, enabledPredicate := none, paused := decide (type = TaskType.ONCE),
        running := false, type := type, intervalMs := 0, lastEnd := 0, stats := none,
        doneCallback := none, params := 0 } := by
  cases type <;> rfl

/-- C12: a task built by `Task(name, type, fn)` has the requested type, and one
built by `Task(name, fn)` is FOREVER; it is paused exactly when its type is
ONCE, not running, with interval 0, enabled in every world and with an early
run requested. A fresh FOREVER task should run in every world; a fresh ONCE
task should run in none, and in every one after `resume()`.
`TaskManager::newTask` appends the address of such a fresh task to the list and
puts the task at that address. -/
theorem new_task_state (name : String) (type : TaskType) (fn : Nat → σ → σ) :
    (Task.new name type fn).type = type ∧
      (Task.newForever name fn).type = TaskType.FOREVER ∧
      (Task.new name type fn).paused = decide (type = TaskType.ONCE) ∧
      (Task.new name type fn).running = false ∧
      (Task.new name type fn).interval = 0 ∧
      (∀ w : World σ, (Task.new name type fn).enabled w = true) ∧
      (Task.new name type fn).earlyRunRequested = true ∧
      (∀ w : World σ, (Task.newForever name fn).shouldRun w = (true, w)) ∧
      (∀ w : World σ, (Task.new name TaskType.ONCE fn).shouldRun w = (false, w)) ∧
      (∀ w v : World σ,
        ((Task.new name TaskType.ONCE fn).resume 0 w).1.shouldRun v = (true, v)) ∧
      (∀ (tm : TaskManager) (ptr : Nat) (h : Heap σ),
        (tm.newTask ptr name type fn h).1.tasks = tm.tasks ++ [ptr] ∧
        (tm.newTask ptr name type fn h).2 ptr = some (Task.new name type fn) ∧
        (tm.newTaskForever ptr name fn h).1.tasks = tm.tasks ++ [ptr] ∧
        (tm.newTaskForever ptr name fn h).2 ptr = some (Task.newForever name fn)) := by
  refine ⟨?_, ?_, ?_, ?_, ?_, ?_, ?_, ?_, ?_, ?_, ?_⟩
  · rw [new_eq]
  · rw [newForever, new_eq]
  · rw [new_eq]
  · rw [new_eq]
  · rw [new_eq]; rfl
  · intro w; rw [new_eq]; rfl
  · rw [new_eq]; rfl
  · intro w; rw [newForever, new_eq]; rfl
  · intro w; rw [new_eq]; rfl
  · intro w v; rw [new_eq]; rfl
  · intro tm ptr h
    refine ⟨rfl, ?_, rfl, ?_⟩
    · simp [TaskManager.newTask, Heap.set]
    · simp [TaskManager.newTaskForever, TaskManager.newTask, Heap.set, newForever]

/-! ## remainingTme, scheduled and the enabled predicate -/

/-- The value `remainingTme()` returns. -/
theorem remainingTme_fst (t : Task σ) (w : World σ) :
    (t.remainingTme w).1 =
      if t.intervalMs = 0 then 0
      else if t.intervalMs ≤ sub32 w.reading t.lastEnd then 0
      else t.intervalMs - sub32 w.reading t.lastEnd := by
  unfold remainingTme millis
  split <;> rfl

/-- C13: `remainingTme()` returns 0 when the interval is 0, and otherwise the
interval minus the difference `now - lastEnd` taken modulo `2 ^ 32`, floored at
0, where `now` is the reading of the clock at the call. The equation is one of
integers, so the subtraction of the source does not wrap; the result never
exceeds the interval, and it is 0 exactly when the interval is 0 or the
difference has reached it. -/
theorem remainingTme_value (t : Task σ) (w : World σ) (hwf : t.WF) :
    ((t.remainingTme w).1 : Int) =
        (if t.intervalMs = 0 then 0
          else max 0 ((t.intervalMs : Int) - ((w.reading : Int) - (t.lastEnd : Int)) % 2 ^ 32)) ∧
      (t.remainingTme w).1 ≤ t.intervalMs ∧
      ((t.remainingTme w).1 = 0 ↔
        (t.intervalMs = 0 ∨
          ((w.reading : Int) - (t.lastEnd : Int)) % 2 ^ 32 ≥ (t.intervalMs : Int))) := by
  have hs := sub32_int w.reading t.lastEnd hwf.2
  rw [remainingTme_fst, ← hs]
  by_cases h0 : t.intervalMs = 0
  · simp [h0]
  · by_cases h1 : t.intervalMs ≤ sub32 w.reading t.lastEnd
    · simp only [if_neg h0, if_pos h1]
      refine ⟨?_, by omega, ⟨fun _ => Or.inr (by omega), fun _ => trivial⟩⟩
      rw [max_eq_left (by omega)]
      rfl
    · simp only [if_neg h0, if_neg h1]
      refine ⟨?_, by omega, by omega⟩
      rw [max_eq_right (by omega)]
      omega

theorem remainingTme_value_witness :
    (taskOf TaskType.FOREVER false 100 4294967290).WF ∧
      ((taskOf TaskType.FOREVER false 100 4294967290).remainingTme (worldOf [4294967330])).1
        = 60 ∧
      ((taskOf TaskType.FOREVER false 100 4294967290).remainingTme (worldOf [4294967330])).1
        ≤ (taskOf TaskType.FOREVER false 100 4294967290).intervalMs :=
  ⟨by decide, by decide,
    (remainingTme_value (taskOf TaskType.FOREVER false 100 4294967290)
      (worldOf [4294967330]) (by decide)).2.1⟩

/-- C19: at one and the same clock reading, `shouldRun()` true implies
`scheduled()` true; on a scheduled task `remainingTme() == 0` implies
`shouldRun()` true; and when `lastEnd != 0` (no early run pending)
`shouldRun()` true implies `remainingTme() == 0`, so that on a scheduled task
without a pending early run the two queries agree. -/
theorem shouldRun_scheduled_remainingTme (t : Task σ) (w : World σ) :
    ((t.shouldRun w).1 = true → t.scheduled w = true) ∧
      (t.scheduled w = true → (t.remainingTme w).1 = 0 → (t.shouldRun w).1 = true) ∧
      (t.lastEnd ≠ 0 → (t.shouldRun w).1 = true → (t.remainingTme w).1 = 0) ∧
      (t.scheduled w = true → t.lastEnd ≠ 0 →
        ((t.shouldRun w).1 = true ↔ (t.remainingTme w).1 = 0)) := by
  have hr : (t.remainingTme w).1 = 0 ↔
      (t.intervalMs = 0 ∨ t.intervalMs ≤ sub32 w.reading t.lastEnd) := by
    rw [remainingTme_fst]
    by_cases h0 : t.intervalMs = 0
    · simp [h0]
    · by_cases h1 : t.intervalMs ≤ sub32 w.reading t.lastEnd
      · simp [h0, h1]
      · simp only [if_neg h0, if_neg h1]
        omega
  have hs : (t.shouldRun w).1 = true ↔
      (t.scheduled w = true ∧
        (t.lastEnd = 0 ∨ t.intervalMs = 0 ∨ t.intervalMs ≤ sub32 w.reading t.lastEnd)) := by
    rw [shouldRun_fst, scheduled]
    cases t.paused <;> cases t.enabled w <;> simp [or_assoc]
  refine ⟨fun h => (hs.1 h).1, fun hsch h0 => hs.2 ⟨hsch, Or.inr (hr.1 h0)⟩, ?_, ?_⟩
  · intro hl h
    rcases (hs.1 h).2 with h1 | h1
    · exact absurd h1 hl
    · exact hr.2 h1
  · intro hsch hl
    constructor
    · intro h
      rcases (hs.1 h).2 with h1 | h1
      · exact absurd h1 hl
      · exact hr.2 h1
    · intro h0
      exact hs.2 ⟨hsch, Or.inr (hr.1 h0)⟩

theorem shouldRun_scheduled_remainingTme_witness :
    (taskOf TaskType.FOREVER false 100 1000).scheduled (worldOf [1100]) = true ∧
      (taskOf TaskType.FOREVER false 100 1000).lastEnd ≠ 0 ∧
      ((taskOf TaskType.FOREVER false 100 1000).remainingTme (worldOf [1100])).1 = 0 ∧
      ((taskOf TaskType.FOREVER false 100 1000).shouldRun (worldOf [1100])).1 = true ∧
      ((taskOf TaskType.FOREVER false 100 0).shouldRun (worldOf [50])).1 = true ∧
      ((taskOf TaskType.FOREVER false 100 0).remainingTme (worldOf [50])).1 = 50 :=
  ⟨by decide, by decide, by decide,
    (shouldRun_scheduled_remainingTme (taskOf TaskType.FOREVER false 100 1000)
      (worldOf [1100])).2.1 (by decide) (by decide),
    by decide, by decide⟩

/-- C17: `enabled()` is true when no predicate is installed. After
`setEnabledWhen(p)`, `enabled()` in any world is the value `p` returns on the
application state of that world, also after the task has been polled or run in
between (nothing is cached); in a world where `p` returns false, `shouldRun()`,
`tryRun()` and `scheduled()` return false; and `setEnabledWhen` changes the
predicate only, leaving paused, running, type, interval, `lastEnd` and the other
members as they were. -/
theorem enabled_follows_predicate (t : Task σ) (p : σ → Bool) :
    (t.enabledPredicate = none → ∀ w : World σ, t.enabled w = true) ∧
      (∀ w : World σ, (t.setEnabledWhen p).enabled w = p w.ext) ∧
      (∀ w v : World σ, ((t.setEnabledWhen p).tryRun w).2.1.enabled v = p v.ext) ∧
      (∀ w v : World σ, ((t.setEnabledWhen p).forceRun w).1.enabled v = p v.ext) ∧
      (∀ w : World σ, p w.ext = false →
        ((t.setEnabledWhen p).shouldRun w).1 = false ∧
        ((t.setEnabledWhen p).tryRun w).1 = false ∧
        (t.setEnabledWhen p).scheduled w = false) ∧
      t.setEnabledWhen p = { t with enabledPredicate := some p } ∧
      (t.setEnabledWhen p).paused = t.paused ∧
      (t.setEnabledWhen p).type = t.type ∧
      (t.setEnabledWhen p).intervalMs = t.intervalMs ∧
      (t.setEnabledWhen p).lastEnd = t.lastEnd := by
  have hrun : ∀ (now : Nat) (w v : World σ),
      ((t.setEnabledWhen p).run now w).1.enabled v = p v.ext := by
    intro now w v
    rw [run_task]
    rfl
  refine ⟨?_, fun _ => rfl, ?_, fun w v => hrun _ _ v, ?_, rfl, rfl, rfl, rfl, rfl⟩
  · intro h w
    unfold enabled
    rw [h]
  · intro w v
    cases hr : ((t.setEnabledWhen p).tryRun w).1
    · rw [(tryRun_of_false _ w hr).1]
      rfl
    · rw [(tryRun_of_true _ w hr).2.2]
      exact hrun _ _ v
  · intro w hw
    have he : (t.setEnabledWhen p).enabled w = false := hw
    have hs : ((t.setEnabledWhen p).shouldRun w).1 = false := by
      rw [shouldRun_fst, he]
      simp
    refine ⟨hs, ?_, ?_⟩
    · rw [tryRun_fst, hs]
    · unfold scheduled
      rw [he]
      rfl

theorem enabled_follows_predicate_witness :
    (fun n : Nat => decide (n = 0)) (1 : Nat) = false ∧
      (((taskB.resume 0 worldB).1.setEnabledWhen (fun n => decide (n = 0))).tryRun
        { worldB with ext := 1 }).1 = false ∧
      (((taskB.resume 0 worldB).1.setEnabledWhen (fun n => decide (n = 0))).tryRun
        worldB).1 = true :=
  ⟨rfl,
    ((enabled_follows_predicate (taskB.resume 0 worldB).1 (fun n => decide (n = 0))).2.2.2.2.1
      { worldB with ext := 1 } rfl).2.1,
    by decide⟩

/-! ## What a run reports -/

/-- C18: a run that starts at reading `s` (the reading of the poll) and whose
work returns at reading `e` (the next reading) reports
`elapsed = (e - s) mod 2 ^ 32`. With a callback attached, the log of calls grows
by the call of the work closure and then by exactly one call of the callback,
which receives `elapsed` and sees the task after the update: `running()` false
and `lastEnd = e`; without one it grows by the call of the work closure only.
With a histogram attached, exactly that value is added to its observations;
without one there is still none. If `e` is `d` ms after `s`, `d < 2 ^ 32`, the
value is `d`, across the wrap of the counter too. This is so for `forceRun()`,
and for `tryRun()` whenever it runs. -/
theorem run_reports_elapsed (t : Task σ) (w : World σ) :
    (∀ cb, t.doneCallback = some cb →
        (t.forceRun w).2.trace =
          w.trace ++ [Event.fn { t.view with running := true } t.params,
            Event.done (t.forceRun w).1.view (sub32 w.next.reading w.reading)] ∧
        (t.forceRun w).2.ext =
          cb (t.forceRun w).1.view (sub32 w.next.reading w.reading) (t.fn t.params w.ext) ∧
        (t.forceRun w).1.view.running = false ∧
        (t.forceRun w).1.view.lastEnd = w.next.reading) ∧
      (t.doneCallback = none →
        (t.forceRun w).2.trace =
          w.trace ++ [Event.fn { t.view with running := true } t.params]) ∧
      (∀ st, t.stats = some st →
        (t.forceRun w).1.stats =
          some { st with
            observations := st.observations ++ [sub32 w.next.reading w.reading] }) ∧
      (t.stats = none → (t.forceRun w).1.stats = none) ∧
      ((sub32 w.next.reading w.reading : Nat) : Int) =
        ((w.next.reading : Int) - (w.reading : Int)) % 2 ^ 32 ∧
      (∀ d : Nat, d < 2 ^ 32 → w.next.reading = (w.reading + d) % 2 ^ 32 →
        sub32 w.next.reading w.reading = d) ∧
      ((t.tryRun w).1 = true → (t.tryRun w).2 = t.forceRun w) := by
  have hf : t.forceRun w = t.run w.reading w.next := rfl
  have hw := run_world t w.reading w.next
  have ht := run_task t w.reading w.next
  rw [← hf] at hw ht
  have hlt : w.reading < 2 ^ 32 := Nat.mod_lt _ (by norm_num)
  refine ⟨?_, ?_, ?_, ?_, sub32_int _ _ hlt, ?_, ?_⟩
  · intro cb hcb
    rw [hcb] at hw
    refine ⟨?_, ?_, ?_, ?_⟩
    · rw [hw]; simp [World.next]
    · rw [hw]; simp [World.next]
    · rw [ht]; rfl
    · rw [ht]; rfl
  · intro hcb
    rw [hcb] at hw
    rw [hw]
    simp [World.next]
  · intro st hst
    rw [ht, hst]
    rfl
  · intro hst
    rw [ht, hst]
    rfl
  · intro d hd he
    rw [he]
    exact sub32_add _ _ hlt hd
  · intro h
    rw [hf]
    exact (tryRun_of_true t w h).2.2

theorem run_reports_elapsed_witness :
    taskC.doneCallback = some storeElapsed ∧
      (10 : Nat) < 2 ^ 32 ∧
      worldC.reading = 4294967290 ∧
      worldC.next.reading = (worldC.reading + 10) % 2 ^ 32 ∧
      sub32 worldC.next.reading worldC.reading = 10 ∧
      (taskC.forceRun worldC).1.view.lastEnd = 4 ∧
      (taskC.forceRun worldC).2.ext = 10 ∧
      (taskC.forceRun worldC).1.stats.map BinStatistics.observations = some [10] :=
  ⟨rfl, by decide, by decide, by decide,
    (run_reports_elapsed taskC worldC).2.2.2.2.2.1 10 (by decide) (by decide),
    ((run_reports_elapsed taskC worldC).1 storeElapsed rfl).2.2.2,
    by decide, by decide⟩

end Task

namespace TaskManager

variable {σ : Type}

/-! ## The heap -/

theorem heap_set_same (h : Heap σ) (p : Nat) (t : Task σ) : (h.set p t) p = some t := by
  simp [Heap.set]

theorem heap_set_other (h : Heap σ) (p q : Nat) (t : Task σ) (hq : q ≠ p) :
    (h.set p t) q = h q := by
  simp [Heap.set, hq]

theorem heap_set_self (h : Heap σ) (p : Nat) (t : Task σ) (hp : h p = some t) :
    h.set p t = h := by
  funext q
  by_cases hq : q = p
  · rw [hq, heap_set_same, hp]
  · rw [heap_set_other h p q t hq]

/-! ## Registration -/

/-- C15: `removeTask(T)` leaves a sublist of the task list (the entries that
stay keep their relative order), in which the address of `T` no longer occurs,
however often it was registered, and every other address occurs as often as
before; the number of tasks drops by the number of entries of `T`. When `T` is
not registered the manager is unchanged and so is `tasks()`; the function is
total, so there is no error to raise. `addTask(T)` followed by `removeTask(T)`
on a manager that did not hold `T` gives back the original manager. -/
theorem removeTask_effect (tm : TaskManager) (ptr : Nat) :
    List.Sublist (tm.removeTask ptr).tasks tm.tasks ∧
      (∀ p : Nat, p ∈ (tm.removeTask ptr).tasks ↔ (p ∈ tm.tasks ∧ p ≠ ptr)) ∧
      (tm.removeTask ptr).tasks.count ptr = 0 ∧
      (∀ p : Nat, p ≠ ptr → (tm.removeTask ptr).tasks.count p = tm.tasks.count p) ∧
      (tm.removeTask ptr).size + tm.tasks.count ptr = tm.size ∧
      (ptr ∉ tm.tasks → tm.removeTask ptr = tm ∧ (tm.removeTask ptr).size = tm.size) ∧
      (ptr ∉ tm.tasks → (tm.addTask ptr).removeTask ptr = tm) ∧
      ((tm.addTask ptr).addTask ptr).removeTask ptr = tm.removeTask ptr := by
  have hfix : ptr ∉ tm.tasks → tm.tasks.filter (fun p => !decide (p = ptr)) = tm.tasks := by
    intro hn
    rw [List.filter_eq_self]
    intro a ha
    have : a ≠ ptr := fun h => hn (h ▸ ha)
    simp [this]
  refine ⟨List.filter_sublist _, ?_, ?_, ?_, ?_, ?_, ?_, ?_⟩
  · intro p
    simp [removeTask, List.mem_filter]
  · rw [List.count_eq_zero]
    simp [removeTask, List.mem_filter]
  · intro p hp
    simp only [removeTask]
    rw [List.count_filter]
    simp [hp]
  · simp only [removeTask, size]
    induction tm.tasks with
    | nil => rfl
    | cons a l ih =>
      by_cases ha : a = ptr
      · simp [List.filter_cons, ha, List.count_cons]
        omega
      · have hb : (a == ptr) = false := by simp [ha]
        simp [List.filter_cons, ha, List.count_cons, hb]
        omega
  · intro hn
    have : tm.removeTask ptr = tm := by
      unfold removeTask
      rw [hfix hn]
    rw [this]
    exact ⟨rfl, rfl⟩
  · intro hn
    unfold removeTask addTask
    simp [List.filter_append, hfix hn]
  · unfold removeTask addTask
    simp [List.filter_append]

theorem removeTask_effect_witness :
    (5 : Nat) ∉ managerD.tasks ∧
      managerD.removeTask 5 = managerD ∧
      (managerD.addTask 5).removeTask 5 = managerD ∧
      ((managerD.addTask 2).removeTask 2).tasks = [1, 3] :=
  ⟨by decide, ((removeTask_effect managerD 5).2.2.2.2.2.1 (by decide)).1,
    (removeTask_effect managerD 5).2.2.2.2.2.2.1 (by decide), by decide⟩

/-! ## Bulk pause and resume -/

/-- The heap after the `for` of `pause()`. -/
theorem pauseTasks_apply (l : List Nat) :
    ∀ (h : Heap σ) (q : Nat),
      pauseTasks l h q = if q ∈ l then (h q).map Task.pause else h q := by
  induction l with
  | nil => intro h q; simp [pauseTasks]
  | cons p ps ih =>
    intro h q
    cases hp : h p with
    | none =>
      simp only [pauseTasks, hp, ih, List.mem_cons]
      by_cases hq : q = p
      · subst hq
        simp [hp]
      · simp [hq]
    | some t =>
      simp only [pauseTasks, hp, ih, List.mem_cons]
      by_cases hq : q = p
      · subst hq
        simp [heap_set_same, hp, Task.pause]
      · simp [hq, heap_set_other h p q _ hq]

/-- A pass over paused tasks runs nothing and changes nothing. -/
theorem loopTasks_of_paused (l : List Nat) (h : Heap σ) (w : World σ)
    (hp : ∀ p ∈ l, ∀ t, h p = some t → t.paused = true) :
    loopTasks l h w = (0, h, w) := by
  induction l with
  | nil => rfl
  | cons p ps ih =>
    have ih2 := ih (fun q hq t ht => hp q (List.mem_cons_of_mem _ hq) t ht)
    cases hh : h p with
    | none => simp only [loopTasks, hh, ih2]
    | some t =>
      have hpt := hp p (List.mem_cons_self _ _) t hh
      simp only [loopTasks, hh, Task.tryRun_of_paused t w hpt, heap_set_self h p t hh]
      simp [ih2]

/-- The task `resume(d)` leaves. -/
theorem resume_fst (t : Task σ) (d : Nat) (w : World σ) :
    (t.resume d w).1 =
      if d ≠ 0 then { t with intervalMs := d, lastEnd := w.reading, paused := false }
      else { t with paused := false } := by
  unfold Task.resume
  split <;> rfl

/-- The world `resume(d)` leaves. -/
theorem resume_snd (t : Task σ) (d : Nat) (w : World σ) :
    (t.resume d w).2 = if d ≠ 0 then w.next else w := by
  unfold Task.resume
  split <;> rfl

/-- The task `resume(d)` leaves depends on the world through the reading only. -/
theorem resume_congr (t : Task σ) (d : Nat) (w v : World σ) (h : d ≠ 0 → w.reading = v.reading) :
    (t.resume d w).1 = (t.resume d v).1 := by
  rw [resume_fst, resume_fst]
  by_cases hd : d = 0
  · simp [hd]
  · simp [hd, h hd]

/-- A second `resume(d)` overrides the first. -/
theorem resume_resume (t : Task σ) (d : Nat) (w v : World σ) :
    ((t.resume d w).1.resume d v).1 = (t.resume d v).1 := by
  rw [resume_fst (t.resume d w).1, resume_fst t d w, resume_fst t d v]
  by_cases hd : d = 0
  · simp [hd]
  · simp [hd]

/-- The `for` of `resume(d)` leaves the tasks that are not registered alone. -/
theorem resumeTasks_other (d : Nat) (l : List Nat) :
    ∀ (h : Heap σ) (w : World σ) (q : Nat), q ∉ l → (resumeTasks d l h w).1 q = h q := by
  induction l with
  | nil => intro h w q _; rfl
  | cons p ps ih =>
    intro h w q hq
    have hqp : q ≠ p := fun e => hq (e ▸ List.mem_cons_self _ _)
    have hqs : q ∉ ps := fun e => hq (List.mem_cons_of_mem _ e)
    cases hh : h p with
    | none => simp only [resumeTasks, hh, ih h w q hqs]
    | some t => simp only [resumeTasks, hh, ih _ _ q hqs, heap_set_other h p q _ hqp]

/-- The `for` of `resume(d)` constructs no task. -/
theorem resumeTasks_none (d : Nat) (l : List Nat) :
    ∀ (h : Heap σ) (w : World σ) (q : Nat), h q = none → (resumeTasks d l h w).1 q = none := by
  induction l with
  | nil => intro h w q hq; exact hq
  | cons p ps ih =>
    intro h w q hq
    cases hh : h p with
    | none => simp only [resumeTasks, hh, ih h w q hq]
    | some t =>
      have hqp : q ≠ p := fun e => by rw [e, hh] at hq; cases hq
      simp only [resumeTasks, hh]
      exact ih _ _ q (by rw [heap_set_other h p q _ hqp, hq])

/-- The `for` of `resume(d)` calls nothing outside and leaves the application
state alone. -/
theorem resumeTasks_world (d : Nat) (l : List Nat) :
    ∀ (h : Heap σ) (w : World σ),
      (resumeTasks d l h w).2.trace = w.trace ∧ (resumeTasks d l h w).2.ext = w.ext ∧
        (resumeTasks d l h w).2.clock = w.clock := by
  induction l with
  | nil => intro h w; exact ⟨rfl, rfl, rfl⟩
  | cons p ps ih =>
    intro h w
    cases hh : h p with
    | none => simp only [resumeTasks, hh, ih h w, and_self]
    | some t =>
      simp only [resumeTasks, hh]
      have := ih (h.set p (t.resume d w).1) (t.resume d w).2
      rw [this.1, this.2.1, this.2.2, resume_snd]
      by_cases hd : d = 0 <;> simp [hd, World.next]

/-- Every registered task is left by the `for` of `resume(d)` as `resume(d)`
leaves it, called at one of the readings of the pass. -/
theorem resumeTasks_mem (d : Nat) (l : List Nat) :
    ∀ (h : Heap σ) (w : World σ) (p : Nat), p ∈ l → ∀ t, h p = some t →
      ∃ k, k < l.length ∧
        (resumeTasks d l h w).1 p = some (t.resume d { w with tick := w.tick + k }).1 := by
  induction l with
  | nil => intro h w p hp; cases hp
  | cons q qs ih =>
    intro h w p hp t ht
    have shift : ∀ (u : Task σ) (k : Nat),
        (u.resume d { (u.resume d w).2 with tick := (u.resume d w).2.tick + k }).1 =
          (u.resume d { w with tick := w.tick + (k + 1) }).1 := by
      intro u k
      apply resume_congr
      intro hd
      rw [resume_snd, if_pos hd]
      simp only [World.reading, World.next]
      rw [Nat.add_assoc, Nat.add_comm 1 k]
    have shift2 : ∀ (u v : Task σ) (k : Nat),
        (u.resume d { (v.resume d w).2 with tick := (v.resume d w).2.tick + k }).1 =
          (u.resume d { w with tick := w.tick + (k + 1) }).1 := by
      intro u v k
      apply resume_congr
      intro hd
      rw [resume_snd, if_pos hd]
      simp only [World.reading, World.next]
      rw [Nat.add_assoc, Nat.add_comm 1 k]
    cases hh : h q with
    | none =>
      have hpq : p ≠ q := fun e => by rw [e, hh] at ht; cases ht
      have hps : p ∈ qs := by
        rcases List.mem_cons.1 hp with e | e
        · exact absurd e hpq
        · exact e
      obtain ⟨k, hk, hres⟩ := ih h w p hps t ht
      refine ⟨k, by simp only [List.length_cons]; omega, ?_⟩
      simp only [resumeTasks, hh]
      exact hres
    | some tq =>
      simp only [resumeTasks, hh]
      by_cases hps : p ∈ qs
      · by_cases hpq : p = q
        · subst hpq
          have htq : tq = t := by rw [hh] at ht; exact Option.some.inj ht
          subst htq
          obtain ⟨k, hk, hres⟩ := ih (h.set p (tq.resume d w).1) (tq.resume d w).2 p hps
            (tq.resume d w).1 (heap_set_same _ _ _)
          refine ⟨k + 1, by simp only [List.length_cons]; omega, ?_⟩
          rw [hres, resume_resume, shift]
        · obtain ⟨k, hk, hres⟩ := ih (h.set q (tq.resume d w).1) (tq.resume d w).2 p hps
            t (by rw [heap_set_other h q p _ hpq, ht])
          refine ⟨k + 1, by simp only [List.length_cons]; omega, ?_⟩
          rw [hres, shift2]
      · have hpq : p = q := by
          rcases List.mem_cons.1 hp with e | e
          · exact e
          · exact absurd e hps
        subst hpq
        have htq : tq = t := by rw [hh] at ht; exact Option.some.inj ht
        subst htq
        refine ⟨0, by simp only [List.length_cons]; omega, ?_⟩
        rw [resumeTasks_other d qs _ _ p hps, heap_set_same]
        rfl

/-- C16: `TaskManager::pause()` leaves the manager (hence the number and order
of its tasks) as it was, leaves each registered task as `Task::pause()` leaves
it, so paused, and every other task untouched; a `loop()` that follows, in any
world, returns 0, changes no task, calls no work closure (the log grows by the
closing `delay` only) and leaves the application state alone.
`TaskManager::resume(d)` leaves the manager as it was, calls nothing outside,
leaves every task that is not registered untouched and every registered task as
`Task::resume(d)` leaves it, called at one of the readings of the pass: not
paused and, when `d > 0`, with interval `d` and that reading as `lastEnd`. -/
theorem pause_resume_all (tm : TaskManager) (h : Heap σ) (w : World σ) (d delayMillis : Nat) :
    (tm.pause h).1 = tm ∧
      (∀ q : Nat, (tm.pause h).2 q = if q ∈ tm.tasks then (h q).map Task.pause else h q) ∧
      (∀ p ∈ tm.tasks, ∀ t, (tm.pause h).2 p = some t → t.paused = true) ∧
      (tm.loop delayMillis (tm.pause h).2 w).1 = 0 ∧
      (tm.loop delayMillis (tm.pause h).2 w).2.1 = tm ∧
      (tm.loop delayMillis (tm.pause h).2 w).2.2.1 = (tm.pause h).2 ∧
      (tm.loop delayMillis (tm.pause h).2 w).2.2.2.trace =
        w.trace ++ (if delayMillis ≠ 0 then [Event.delay delayMillis] else []) ∧
      (tm.loop delayMillis (tm.pause h).2 w).2.2.2.ext = w.ext ∧
      (tm.resume d h w).1 = tm ∧
      (tm.resume d h w).2.2.trace = w.trace ∧
      (tm.resume d h w).2.2.ext = w.ext ∧
      (∀ q : Nat, q ∉ tm.tasks → (tm.resume d h w).2.1 q = h q) ∧
      (∀ p ∈ tm.tasks, ∀ t, h p = some t →
        ∃ k, k < tm.tasks.length ∧
          (tm.resume d h w).2.1 p = some (t.resume d { w with tick := w.tick + k }).1) ∧
      (∀ p ∈ tm.tasks, ∀ t, (tm.resume d h w).2.1 p = some t →
        t.paused = false ∧
          (d ≠ 0 → t.intervalMs = d ∧
            ∃ k, k < tm.tasks.length ∧ t.lastEnd = w.clock (w.tick + k) % 2 ^ 32)) := by
  have hpa : ∀ p ∈ tm.tasks, ∀ t, (tm.pause h).2 p = some t → t.paused = true := by
    intro p hp t ht
    have := pauseTasks_apply tm.tasks h p
    rw [if_pos hp] at this
    have ht2 : pauseTasks tm.tasks h p = some t := ht
    rw [this] at ht2
    cases hh : h p with
    | none => rw [hh] at ht2; cases ht2
    | some u =>
      rw [hh] at ht2
      have : u.pause = t := Option.some.inj ht2
      rw [← this]
      rfl
  have hl := loopTasks_of_paused tm.tasks (tm.pause h).2 (millis w).2 hpa
  have hloop : tm.loop delayMillis (tm.pause h).2 w =
      (0, tm, (tm.pause h).2, if delayMillis ≠ 0 then delay delayMillis w.next else w.next) := by
    unfold loop
    simp only [hl]
    cases hst : tm.stats with
    | none =>
      have : tm = { tm with stats := none } := by rw [← hst]
      simp [millis]
      exact this.symm
    | some st =>
      have : tm = { tm with stats := some st } := by rw [← hst]
      simp [millis]
      exact this.symm
  refine ⟨rfl, pauseTasks_apply tm.tasks h, hpa, ?_, ?_, ?_, ?_, ?_, rfl,
    (resumeTasks_world d tm.tasks h w).1, (resumeTasks_world d tm.tasks h w).2.1,
    fun q hq => resumeTasks_other d tm.tasks h w q hq,
    fun p hp t ht => resumeTasks_mem d tm.tasks h w p hp t ht, ?_⟩
  · rw [hloop]
  · rw [hloop]
  · rw [hloop]
  · rw [hloop]
    by_cases hd : delayMillis = 0 <;> simp [hd, delay, World.log, World.next]
  · rw [hloop]
    by_cases hd : delayMillis = 0 <;> simp [hd, delay, World.log, World.next]
  · intro p hp t ht
    cases hh : h p with
    | none =>
      have := resumeTasks_none d tm.tasks h w p hh
      have ht2 : (resumeTasks d tm.tasks h w).1 p = some t := ht
      rw [this] at ht2
      cases ht2
    | some u =>
      obtain ⟨k, hk, hres⟩ := resumeTasks_mem d tm.tasks h w p hp u hh
      have ht2 : (resumeTasks d tm.tasks h w).1 p = some t := ht
      rw [hres] at ht2
      have ht3 : (u.resume d { w with tick := w.tick + k }).1 = t := Option.some.inj ht2
      rw [resume_fst] at ht3
      by_cases hd : d = 0
      · rw [← ht3]
        simp [hd]
      · rw [← ht3]
        simp only [ne_eq, hd, not_false_eq_true, if_true, true_and, forall_const]
        exact ⟨k, hk, rfl⟩

theorem pause_resume_all_witness :
    (2 : Nat) ∈ managerD.tasks ∧
      heapD 2 = some taskB ∧
      ((managerD.resume 50 heapD (worldN [10, 11, 12])).2.1 2).map
        (fun t => (t.paused, t.intervalMs, t.lastEnd)) = some (false, 50, 11) ∧
      (∃ k, k < managerD.tasks.length ∧
        (managerD.resume 50 heapD (worldN [10, 11, 12])).2.1 2 =
          some (taskB.resume 50
            { worldN [10, 11, 12] with tick := (worldN [10, 11, 12]).tick + k }).1) ∧
      (managerD.loop 10 (managerD.pause heapD).2 (worldN [10, 11, 12])).1 = 0 :=
  ⟨by decide, rfl, by decide,
    (pause_resume_all managerD heapD (worldN [10, 11, 12]) 50 10).2.2.2.2.2.2.2.2.2.2.2.2.1
      2 (by decide) taskB rfl,
    (pause_resume_all managerD heapD (worldN [10, 11, 12]) 50 10).2.2.2.1⟩

/-! ## One pass of the loop -/

/-- A poll does not rename the task. -/
theorem tryRun_name (t : Task σ) (w : World σ) : (t.tryRun w).2.1.name = t.name := by
  cases hr : (t.tryRun w).1
  · rw [(Task.tryRun_of_false t w hr).1]
  · rw [(Task.tryRun_of_true t w hr).2.2, Task.run_task]

/-- A poll adds the task to the work executions exactly when it returns true. -/
theorem tryRun_executions (t : Task σ) (w : World σ) :
    executions (t.tryRun w).2.2.trace =
      executions w.trace ++ (if (t.tryRun w).1 then [t.name] else []) := by
  cases hr : (t.tryRun w).1
  · rw [(Task.tryRun_of_false t w hr).2.1]
    simp
  · rw [(Task.tryRun_of_true t w hr).2.2, Task.run_world]
    cases t.doneCallback <;>
      simp [executions, World.next, List.filterMap_append, Event.fnName, Task.view]

/-- The outcomes noted by `pollInOrder` do not depend on what was noted before. -/
theorem foldl_pollStep (l : List Nat) :
    ∀ (acc : List (Nat × Bool)) (h : Heap σ) (w : World σ),
      l.foldl pollStep (acc, h, w) =
        (acc ++ (l.foldl pollStep ([], h, w)).1, (l.foldl pollStep ([], h, w)).2) := by
  induction l with
  | nil => intro acc h w; simp
  | cons p ps ih =>
    intro acc h w
    simp only [List.foldl_cons]
    cases hh : h p with
    | none =>
      have e1 : pollStep (acc, h, w) p = (acc, h, w) := by simp [pollStep, hh]
      have e2 : pollStep (([] : List (Nat × Bool)), h, w) p = ([], h, w) := by
        simp [pollStep, hh]
      rw [e1, e2]
      exact ih acc h w
    | some t =>
      have e1 : pollStep (acc, h, w) p =
          (acc ++ [(p, (t.tryRun w).1)], h.set p (t.tryRun w).2.1,
            if (t.tryRun w).1 then yield (t.tryRun w).2.2 else (t.tryRun w).2.2) := by
        simp [pollStep, hh]
      have e2 : pollStep (([] : List (Nat × Bool)), h, w) p =
          ([(p, (t.tryRun w).1)], h.set p (t.tryRun w).2.1,
            if (t.tryRun w).1 then yield (t.tryRun w).2.2 else (t.tryRun w).2.2) := by
        simp [pollStep, hh]
      rw [e1, e2, ih (acc ++ [(p, (t.tryRun w).1)]), ih [(p, (t.tryRun w).1)]]
      simp

/-- `pollInOrder` passes over an address at which no task lives. -/
theorem pollInOrder_cons_none (p : Nat) (ps : List Nat) (h : Heap σ) (w : World σ)
    (hh : h p = none) : pollInOrder (p :: ps) h w = pollInOrder ps h w := by
  have e : pollStep (([] : List (Nat × Bool)), h, w) p = ([], h, w) := by simp [pollStep, hh]
  simp only [pollInOrder, List.foldl_cons, e]

/-- `pollInOrder` polls the first task, then the others. -/
theorem pollInOrder_cons_some (p : Nat) (ps : List Nat) (h : Heap σ) (w : World σ)
    (t : Task σ) (hh : h p = some t) :
    pollInOrder (p :: ps) h w =
      ((p, (t.tryRun w).1) ::
          (pollInOrder ps (h.set p (t.tryRun w).2.1)
            (if (t.tryRun w).1 then yield (t.tryRun w).2.2 else (t.tryRun w).2.2)).1,
        (pollInOrder ps (h.set p (t.tryRun w).2.1)
            (if (t.tryRun w).1 then yield (t.tryRun w).2.2 else (t.tryRun w).2.2)).2) := by
  have e : pollStep (([] : List (Nat × Bool)), h, w) p =
      ([(p, (t.tryRun w).1)], h.set p (t.tryRun w).2.1,
        if (t.tryRun w).1 then yield (t.tryRun w).2.2 else (t.tryRun w).2.2) := by
    simp [pollStep, hh]
  simp only [pollInOrder, List.foldl_cons, e]
  rw [foldl_pollStep]
  simp

/-- The `for` of `loop` against `pollInOrder`. -/
theorem loopTasks_pollInOrder (l : List Nat) :
    ∀ (h : Heap σ) (w : World σ),
      (pollInOrder l h w).1.map Prod.fst = l.filter (fun p => (h p).isSome) ∧
        (loopTasks l h w).1 = ((pollInOrder l h w).1.filter (fun r => r.2)).length ∧
        (loopTasks l h w).2 = (pollInOrder l h w).2 ∧
        executions (loopTasks l h w).2.2.trace =
          executions w.trace ++
            ((pollInOrder l h w).1.filter (fun r => r.2)).filterMap
              (fun r => (h r.1).map Task.name) ∧
        (∀ q : Nat, ((loopTasks l h w).2.1 q).map Task.name = (h q).map Task.name) := by
  induction l with
  | nil =>
    intro h w
    simp [pollInOrder, loopTasks]
  | cons p ps ih =>
    intro h w
    cases hh : h p with
    | none =>
      rw [pollInOrder_cons_none p ps h w hh]
      obtain ⟨i1, i2, i3, i4, i5⟩ := ih h w
      simp only [loopTasks, hh]
      refine ⟨?_, i2, i3, i4, i5⟩
      rw [i1]
      simp [List.filter_cons, hh]
    | some t =>
      rw [pollInOrder_cons_some p ps h w t hh]
      obtain ⟨i1, i2, i3, i4, i5⟩ := ih (h.set p (t.tryRun w).2.1)
        (if (t.tryRun w).1 then yield (t.tryRun w).2.2 else (t.tryRun w).2.2)
      have hname : ∀ q : Nat,
          ((h.set p (t.tryRun w).2.1) q).map Task.name = (h q).map Task.name := by
        intro q
        by_cases hq : q = p
        · rw [hq, heap_set_same, hh]
          simp [tryRun_name]
        · rw [heap_set_other h p q _ hq]
      have hsome : ∀ q : Nat, ((h.set p (t.tryRun w).2.1) q).isSome = (h q).isSome := by
        intro q
        have := hname q
        cases h1 : (h.set p (t.tryRun w).2.1) q <;> cases h2 : h q <;> simp_all
      have hex : executions
          (if (t.tryRun w).1 then yield (t.tryRun w).2.2 else (t.tryRun w).2.2).trace =
          executions w.trace ++ (if (t.tryRun w).1 then [t.name] else []) := by
        rw [← tryRun_executions]
        cases (t.tryRun w).1 <;> simp [yield, World.log, executions, Event.fnName]
      simp only [loopTasks, hh]
      refine ⟨?_, ?_, i3, ?_, ?_⟩
      · simp only [List.map_cons, i1, List.filter_cons, hh, Option.isSome_some, if_true]
        congr 1
        apply List.filter_congr
        intro q _
        exact hsome q
      · rw [i2]
        cases (t.tryRun w).1 <;> simp [List.filter_cons, Nat.add_comm]
      · rw [i4, hex]
        have hfm : ∀ rs : List (Nat × Bool),
            rs.filterMap (fun r => ((h.set p (t.tryRun w).2.1) r.1).map Task.name) =
              rs.filterMap (fun r => (h r.1).map Task.name) := by
          intro rs
          congr 1
          funext r
          exact hname r.1
        rw [hfm]
        cases (t.tryRun w).1 <;> simp [List.filter_cons, hh]
      · intro q
        rw [i5 q, hname q]

/-- C14: one `loop()` pass is the pass `pollInOrder` describes, started after
the opening clock read: when a task lives at every registered address, the
addresses polled, one `tryRun()` each, are the task list in its order (a task
registered twice is polled at each of its two places); the
value returned is the number of polls that returned true (0 for an empty
manager); the tasks are left as the polls leave them; the work executions
logged during the pass are the names of the tasks whose poll returned true, in
the order of the polls, and the addresses of these tasks form a sublist of the
task list; the task list itself is unchanged. -/
theorem loop_polls_in_order (tm : TaskManager) (delayMillis : Nat) (h : Heap σ)
    (w : World σ) :
    ((∀ p ∈ tm.tasks, (h p).isSome = true) →
        (pollInOrder tm.tasks h w.next).1.map Prod.fst = tm.tasks) ∧
      (tm.loop delayMillis h w).1 =
        ((pollInOrder tm.tasks h w.next).1.filter (fun r => r.2)).length ∧
      (tm.loop delayMillis h w).2.2.1 = (pollInOrder tm.tasks h w.next).2.1 ∧
      executions (tm.loop delayMillis h w).2.2.2.trace =
        executions w.trace ++
          ((pollInOrder tm.tasks h w.next).1.filter (fun r => r.2)).filterMap
            (fun r => (h r.1).map Task.name) ∧
      List.Sublist (((pollInOrder tm.tasks h w.next).1.filter (fun r => r.2)).map Prod.fst)
        tm.tasks ∧
      (tm.tasks = [] → (tm.loop delayMillis h w).1 = 0) ∧
      (tm.loop delayMillis h w).2.1.tasks = tm.tasks := by
  obtain ⟨i1, i2, i3, i4, -⟩ := loopTasks_pollInOrder tm.tasks h w.next
  have hex : executions (tm.loop delayMillis h w).2.2.2.trace =
      executions (loopTasks tm.tasks h w.next).2.2.trace := by
    unfold loop
    cases tm.stats with
    | none =>
      dsimp only
      split_ifs <;>
        simp [delay, World.log, executions, Event.fnName, List.filterMap_append, millis]
    | some st =>
      dsimp only
      split_ifs <;>
        simp [delay, World.log, executions, Event.fnName, List.filterMap_append, millis,
          World.next]
  refine ⟨?_, i2, ?_, ?_, ?_, ?_, rfl⟩
  · intro hv
    rw [i1, List.filter_eq_self]
    exact hv
  · rw [← i3]
    rfl
  · rw [hex, i4]
    rfl
  · have h1 : List.Sublist
        (((pollInOrder tm.tasks h w.next).1.filter (fun r => r.2)).map Prod.fst)
        ((pollInOrder tm.tasks h w.next).1.map Prod.fst) :=
      List.Sublist.map _ (List.filter_sublist _)
    rw [i1] at h1
    exact h1.trans (List.filter_sublist _)
  · intro he
    have : (tm.loop delayMillis h w).1 = (loopTasks tm.tasks h w.next).1 := rfl
    rw [this, he]
    rfl

theorem loop_polls_in_order_witness :
    (∀ p ∈ managerD.tasks, (heapD p).isSome = true) ∧
      (pollInOrder managerD.tasks heapD (worldN [0, 5, 6, 7, 8]).next).1.map Prod.fst =
        managerD.tasks ∧
      (pollInOrder managerD.tasks heapD (worldN [0, 5, 6, 7, 8]).next).1 =
        [(1, true), (2, false), (3, true)] ∧
      (managerD.loop 10 heapD (worldN [0, 5, 6, 7, 8])).1 = 2 ∧
      executions (managerD.loop 10 heapD (worldN [0, 5, 6, 7, 8])).2.2.2.trace = ["A", "D"] :=
  ⟨by decide,
    (loop_polls_in_order managerD 10 heapD (worldN [0, 5, 6, 7, 8])).1 (by decide),
    by decide, by decide, by decide⟩

end TaskManager

namespace Program

variable {σ : Type}

/-! ## The running flag between operations -/

theorem traceOk_of_eq (w v : World σ) (h : v.trace = w.trace) : TraceOk w v := by
  intro ev hev
  rw [h] at hev
  exact Or.inl hev

theorem traceOk_trans (u v w : World σ) (h1 : TraceOk u v) (h2 : TraceOk v w) :
    TraceOk u w := by
  intro ev hev
  rcases h2 ev hev with h | h
  · exact h1 ev h
  · exact Or.inr h

theorem idle_set (h : Heap σ) (p : Nat) (t : Task σ) (hi : Idle h) (ht : t.running = false) :
    Idle (h.set p t) := by
  intro q u hu
  by_cases hq : q = p
  · rw [hq, TaskManager.heap_set_same] at hu
    rw [← Option.some.inj hu]
    exact ht
  · rw [TaskManager.heap_set_other h p q t hq] at hu
    exact hi q u hu

/-- A run ends with `running()` false. -/
theorem run_running (t : Task σ) (now : Nat) (w : World σ) : (t.run now w).1.running = false := by
  rw [Task.run_task]

/-- The calls a run logs saw `running()` as they should. -/
theorem run_traceOk (t : Task σ) (now : Nat) (w : World σ) : TraceOk w (t.run now w).2 := by
  intro ev hev
  rw [Task.run_world] at hev
  have hr : (t.run now w).1.view.running = false := run_running t now w
  cases hcb : t.doneCallback with
  | none =>
    rw [hcb] at hev
    simp only [World.next, List.mem_append, List.mem_singleton] at hev
    rcases hev with h | h
    · exact Or.inl h
    · right
      rw [h]
      rfl
  | some cb =>
    rw [hcb] at hev
    simp only [World.next, List.mem_append, List.mem_cons, List.mem_singleton,
      List.not_mem_nil, or_false] at hev
    rcases hev with h | h | h
    · exact Or.inl h
    · right
      rw [h]
      rfl
    · right
      rw [h]
      simp [Event.runningAsExpected, hr]

theorem tryRun_running (t : Task σ) (w : World σ) (ht : t.running = false) :
    (t.tryRun w).2.1.running = false := by
  cases hr : (t.tryRun w).1
  · rw [(Task.tryRun_of_false t w hr).1]
    exact ht
  · rw [(Task.tryRun_of_true t w hr).2.2]
    exact run_running _ _ _

theorem tryRun_traceOk (t : Task σ) (w : World σ) : TraceOk w (t.tryRun w).2.2 := by
  cases hr : (t.tryRun w).1
  · exact traceOk_of_eq _ _ (Task.tryRun_of_false t w hr).2.1
  · rw [(Task.tryRun_of_true t w hr).2.2]
    exact traceOk_trans w w.next _ (traceOk_of_eq _ _ rfl) (run_traceOk _ _ _)

/-- A method call on a task that is not running leaves it not running. -/
theorem apply_running (t : Task σ) (w : World σ) (op : TaskOp σ) (ht : t.running = false) :
    (t.apply w op).1.running = false := by
  cases op with
  | setType type =>
    simp only [Task.apply, Task.setType]
    split
    · exact ht
    · exact ht
  | resume d =>
    simp only [Task.apply]
    rw [TaskManager.resume_fst]
    split <;> exact ht
  | tryRun => exact tryRun_running t w ht
  | forceRun => exact run_running _ _ _
  | enableProfiling a b =>
    simp only [Task.apply, Task.enableProfiling]
    split <;> exact ht
  | _ => exact ht

/-- The calls a method call on a task logs saw `running()` as they should. -/
theorem apply_traceOk (t : Task σ) (w : World σ) (op : TaskOp σ) :
    TraceOk w (t.apply w op).2 := by
  cases op with
  | resume d =>
    apply traceOk_of_eq
    simp only [Task.apply]
    rw [TaskManager.resume_snd]
    split <;> rfl
  | remainingTme =>
    apply traceOk_of_eq
    simp only [Task.apply, Task.remainingTme]
    split <;> rfl
  | shouldRun =>
    apply traceOk_of_eq
    simp only [Task.apply, Task.shouldRun]
    split
    · rfl
    · split <;> rfl
  | tryRun => exact tryRun_traceOk t w
  | forceRun =>
    exact traceOk_trans w w.next _ (traceOk_of_eq _ _ rfl) (run_traceOk _ _ _)
  | _ => exact traceOk_of_eq _ _ rfl

theorem forTasks_idle (f : Task σ → Task σ)
    (hf : ∀ t : Task σ, t.running = false → (f t).running = false) (l : List Nat) :
    ∀ h : Heap σ, Idle h → Idle (TaskManager.forTasks f l h) := by
  induction l with
  | nil => intro h hi; exact hi
  | cons p ps ih =>
    intro h hi
    cases hh : h p with
    | none =>
      simp only [TaskManager.forTasks, hh]
      exact ih h hi
    | some t =>
      simp only [TaskManager.forTasks, hh]
      exact ih _ (idle_set h p _ hi (hf t (hi p t hh)))

theorem pauseTasks_idle (l : List Nat) :
    ∀ h : Heap σ, Idle h → Idle (TaskManager.pauseTasks l h) := by
  induction l with
  | nil => intro h hi; exact hi
  | cons p ps ih =>
    intro h hi
    cases hh : h p with
    | none =>
      simp only [TaskManager.pauseTasks, hh]
      exact ih h hi
    | some t =>
      simp only [TaskManager.pauseTasks, hh]
      exact ih _ (idle_set h p _ hi (hi p t hh))

theorem resumeTasks_idle (d : Nat) (l : List Nat) :
    ∀ (h : Heap σ) (w : World σ), Idle h → Idle (TaskManager.resumeTasks d l h w).1 := by
  induction l with
  | nil => intro h w hi; exact hi
  | cons p ps ih =>
    intro h w hi
    cases hh : h p with
    | none =>
      simp only [TaskManager.resumeTasks, hh]
      exact ih h w hi
    | some t =>
      simp only [TaskManager.resumeTasks, hh]
      exact ih _ _ (idle_set h p _ hi (apply_running t w (TaskOp.resume d) (hi p t hh)))

theorem loopTasks_idle (l : List Nat) :
    ∀ (h : Heap σ) (w : World σ), Idle h → Idle (TaskManager.loopTasks l h w).2.1 := by
  induction l with
  | nil => intro h w hi; exact hi
  | cons p ps ih =>
    intro h w hi
    cases hh : h p with
    | none =>
      simp only [TaskManager.loopTasks, hh]
      exact ih h w hi
    | some t =>
      simp only [TaskManager.loopTasks, hh]
      exact ih _ _ (idle_set h p _ hi (tryRun_running t w (hi p t hh)))

theorem loopTasks_traceOk (l : List Nat) :
    ∀ (h : Heap σ) (w : World σ), TraceOk w (TaskManager.loopTasks l h w).2.2 := by
  induction l with
  | nil => intro h w; exact traceOk_of_eq _ _ rfl
  | cons p ps ih =>
    intro h w
    cases hh : h p with
    | none =>
      simp only [TaskManager.loopTasks, hh]
      exact ih h w
    | some t =>
      simp only [TaskManager.loopTasks, hh]
      refine traceOk_trans w _ _ ?_ (ih _ _)
      refine traceOk_trans w _ _ (tryRun_traceOk t w) ?_
      intro ev hev
      cases hr : (t.tryRun w).1
      · rw [hr] at hev
        exact Or.inl hev
      · rw [hr] at hev
        simp only [if_true, yield, World.log, List.mem_append, List.mem_singleton] at hev
        rcases hev with h1 | h1
        · exact Or.inl h1
        · right
          rw [h1]
          rfl

theorem loop_idle (tm : TaskManager) (d : Nat) (h : Heap σ) (w : World σ) (hi : Idle h) :
    Idle (tm.loop d h w).2.2.1 :=
  loopTasks_idle tm.tasks h (millis w).2 hi

theorem loop_traceOk (tm : TaskManager) (d : Nat) (h : Heap σ) (w : World σ) :
    TraceOk w (tm.loop d h w).2.2.2 := by
  have h1 : TraceOk w (TaskManager.loopTasks tm.tasks h w.next).2.2 :=
    traceOk_trans w w.next _ (traceOk_of_eq _ _ rfl) (loopTasks_traceOk _ _ _)
  refine traceOk_trans w _ _ h1 ?_
  intro ev hev
  unfold TaskManager.loop at hev
  cases hst : tm.stats with
  | none =>
    rw [hst] at hev
    dsimp only at hev
    split_ifs at hev
    · simp only [delay, World.log, List.mem_append, List.mem_singleton, millis] at hev
      rcases hev with h2 | h2
      · exact Or.inl h2
      · right
        rw [h2]
        rfl
    · exact Or.inl hev
  | some st =>
    rw [hst] at hev
    dsimp only at hev
    split_ifs at hev <;>
      simp only [delay, World.log, List.mem_append, List.mem_singleton, millis,
        World.next] at hev <;>
      first
        | exact Or.inl hev
        | (rcases hev with h2 | h2
           · exact Or.inl h2
           · right
             rw [h2]
             rfl)

/-- One operation keeps every task not running. -/
theorem step_idle (s : Program σ) (op : Op σ) (hi : Idle s.heap) : Idle (s.step op).heap := by
  cases op with
  | construct ptr name type fn =>
    exact idle_set _ _ _ hi (by rw [Task.new_eq])
  | onTask ptr op =>
    simp only [Program.step]
    cases hh : s.heap ptr with
    | none => exact hi
    | some t => exact idle_set _ _ _ hi (apply_running t s.world op (hi ptr t hh))
  | newTask ptr name type fn =>
    exact idle_set _ _ _ hi (by rw [Task.new_eq])
  | addTask ptr => exact hi
  | removeTask ptr => exact hi
  | loop d => exact loop_idle s.manager d s.heap s.world hi
  | pause => exact pauseTasks_idle _ _ hi
  | resume d => exact resumeTasks_idle d _ _ _ hi
  | setEnabled b => exact forTasks_idle (fun t => t.setEnabled b) (fun _ ht => ht) _ _ hi
  | enableProfiling a b c =>
    refine forTasks_idle (fun t => t.enableProfiling b c) (fun t ht => ?_) _ _ hi
    exact apply_running t s.world (TaskOp.enableProfiling b c) ht
  | enableProfilingManager a c => exact hi
  | disableProfiling => exact forTasks_idle (fun t => t.disableProfiling) (fun _ ht => ht) _ _ hi
  | app f => exact hi

/-- The calls one operation logs saw `running()` as they should. -/
theorem step_traceOk (s : Program σ) (op : Op σ) : TraceOk s.world (s.step op).world := by
  cases op with
  | onTask ptr op =>
    simp only [Program.step]
    cases hh : s.heap ptr with
    | none => exact traceOk_of_eq _ _ rfl
    | some t => exact apply_traceOk t s.world op
  | loop d => exact loop_traceOk s.manager d s.heap s.world
  | resume d => exact traceOk_of_eq _ _ (TaskManager.resumeTasks_world _ _ _ _).1
  | _ => exact traceOk_of_eq _ _ rfl

theorem exec_idle (ops : List (Op σ)) :
    ∀ s : Program σ, Idle s.heap → Idle (s.exec ops).heap := by
  induction ops with
  | nil => intro s hi; exact hi
  | cons op ops ih =>
    intro s hi
    exact ih (s.step op) (step_idle s op hi)

theorem exec_traceOk (ops : List (Op σ)) :
    ∀ s : Program σ, TraceOk s.world (s.exec ops).world := by
  induction ops with
  | nil => intro s; exact traceOk_of_eq _ _ rfl
  | cons op ops ih =>
    intro s
    exact traceOk_trans _ _ _ (step_traceOk s op) (ih (s.step op))

theorem allDone_of_idle (l : List Nat) (h : Heap σ) (hi : Idle h) :
    TaskManager.allDone l h = true := by
  induction l with
  | nil => rfl
  | cons p ps ih =>
    cases hh : h p with
    | none => simp only [TaskManager.allDone, hh, ih]
    | some t => simp [TaskManager.allDone, hh, ih, hi p t hh]

/-- C20: start from a fresh manager and no task, and let the application
perform any sequence of operations: constructing tasks, calling the methods of
the tasks it holds (`setType`, `setEnabled`, `setEnabledWhen`, `setInterval`,
`onDone`, `setData`, `pause`, `resume`, `remainingTme`, `shouldRun`, `tryRun`,
`forceRun`, `requestEarlyRun`, `enableProfiling`, `disableProfiling`) and of the
manager (`newTask`, `addTask`, `removeTask`, `loop`, `pause`, `resume`,
`setEnabled`, `enableProfiling`, `disableProfiling`), and changing its own
state. Afterwards `running()` is false on every task; so
`waitForAllTasksToComplete()` returns at its first check, for any positive
fuel, without a `delay` (the world is returned as it was); and every call
logged on the way saw `running()` true if it was a call of a work closure and
false if it was a call of a completion callback. The step behind this: a fresh
task is not running, and a method call on a task that is not running leaves it
not running. -/
theorem running_false_between_operations (name : String) (w0 : World σ) (ops : List (Op σ)) :
    (∀ (p : Nat) (t : Task σ),
        ((Program.init name w0).exec ops).heap p = some t → t.running = false) ∧
      (∀ (intervalMs fuel : Nat) (w : World σ),
        ((Program.init name w0).exec ops).manager.waitForAllTasksToComplete
          ((Program.init name w0).exec ops).heap intervalMs (fuel + 1) w = some w) ∧
      (∀ ev ∈ ((Program.init name w0).exec ops).world.trace,
        ev ∈ w0.trace ∨ ev.runningAsExpected = true) ∧
      (∀ (n : String) (ty : TaskType) (fn : Nat → σ → σ), (Task.new n ty fn).running = false) ∧
      (∀ (t : Task σ) (w : World σ) (op : TaskOp σ),
        t.running = false → (t.apply w op).1.running = false) := by
  have hi : Idle ((Program.init name w0).exec ops).heap :=
    exec_idle ops (Program.init name w0) (fun p t ht => by cases ht)
  refine ⟨hi, ?_, exec_traceOk ops (Program.init name w0), ?_, apply_running⟩
  · intro intervalMs fuel w
    simp only [TaskManager.waitForAllTasksToComplete, allDone_of_idle _ _ hi, if_true]
  · intro n ty fn
    rw [Task.new_eq]

theorem running_false_between_operations_witness :
    (((Program.init "tm" (worldN [1, 2, 3, 4, 5, 6, 7, 8, 9, 10, 11, 12, 13, 14])).exec
        sessionE).heap 1).map
        (fun t => (t.running, t.paused, t.intervalMs, t.lastEnd)) = some (false, false, 5, 8) ∧
      (taskB.resume 0 worldB).1.running = false ∧
      ((taskB.resume 0 worldB).1.tryRun worldB).2.1.running = false ∧
      ((Program.init "tm" (worldN [1, 2, 3, 4, 5, 6, 7, 8, 9, 10, 11, 12, 13, 14])).exec
        sessionE).manager.tasks = [1, 2] ∧
      (((Program.init "tm" (worldN [1, 2, 3, 4, 5, 6, 7, 8, 9, 10, 11, 12, 13, 14])).exec
        sessionE).world.trace.map Event.runningAsExpected).all id = true :=
  ⟨by decide, rfl,
    (running_false_between_operations "tm" worldB []).2.2.2.2
      (taskB.resume 0 worldB).1 worldB TaskOp.tryRun rfl,
    by decide, by decide⟩

end Program
end Mycila
